import Mathlib

/-!
Verification development for the hls-resolver repository.

The TypeScript sources are shallowly embedded: pure functions become Lean
functions, stateful classes become explicit state-passing step functions,
JavaScript numbers are modelled as `Rat` (with `Option` capturing `NaN`),
and exceptions are modelled with `Except`/`Option`.
-/

namespace HLSResolver

/-! ## JavaScript string and number primitives

Models of the JavaScript built-ins used by the sources.  Only the behaviour
exercised by the repository is modelled: `Number`/`parseInt`/`parseFloat`
are modelled on (signed) decimal strings — the empty string converting to 0
for `Number` — with `none` standing for `NaN`; hexadecimal and exponent
forms do not occur in the repository's inputs and are out of scope.
-/

/-- Model of JavaScript `s.startsWith(p)`. -/
def jsStartsWith (s p : String) : Bool :=
  p.toList.isPrefixOf s.toList

/-- Model of JavaScript `s.endsWith(p)`. -/
def jsEndsWith (s p : String) : Bool :=
  p.toList.isSuffixOf s.toList

/-- Model of JavaScript string trimming at the character-list level. -/
def listTrim (cs : List Char) : List Char :=
  ((cs.dropWhile Char.isWhitespace).reverse.dropWhile Char.isWhitespace).reverse

/-- Model of JavaScript `s.trim()`. -/
def jsTrim (s : String) : String :=
  String.mk (listTrim s.toList)

/-- Splitting scan for `jsSplit`: whenever the (nonempty) separator is a
prefix of the remaining input, the accumulated piece is emitted and the
separator skipped.  The fuel equals the input length. -/
def jsSplitGo (sep : List Char) : Nat → List Char → List Char → List (List Char)
  | _, acc, [] => [acc.reverse]
  | 0, acc, cs => [acc.reverse ++ cs]
  | fuel + 1, acc, c :: rest =>
    if sep.isPrefixOf (c :: rest) then
      acc.reverse :: jsSplitGo sep fuel [] ((c :: rest).drop sep.length)
    else jsSplitGo sep fuel (c :: acc) rest

/-- Model of JavaScript `s.split(sep)` for a nonempty separator. -/
def jsSplit (s sep : String) : List String :=
  (jsSplitGo sep.toList s.toList.length [] s.toList).map String.mk

/-- Decimal value of a list of digit characters (most significant first). -/
def digitsToNat (cs : List Char) : Nat :=
  cs.foldl (fun acc c => acc * 10 + (c.toNat - '0'.toNat)) 0

/-- Core of the `Number(...)` conversion, after trimming and sign handling:
accepts `digits`, `digits.digits`, `.digits`, `digits.`; `none` is `NaN`. -/
def jsNumberCore (cs : List Char) : Option Rat :=
  let intPart := cs.takeWhile Char.isDigit
  let rest := cs.dropWhile Char.isDigit
  match rest with
  | [] => if intPart.isEmpty then none else some (digitsToNat intPart : Rat)
  | '.' :: fracs =>
    let fracPart := fracs.takeWhile Char.isDigit
    let rest2 := fracs.dropWhile Char.isDigit
    if !rest2.isEmpty then none
    else if intPart.isEmpty && fracPart.isEmpty then none
    else some ((digitsToNat intPart : Rat) +
      (digitsToNat fracPart : Rat) / ((10 : Rat) ^ fracPart.length))
  | _ => none

/-- Model of JavaScript `Number(s)`: whitespace-trimmed; the empty string
converts to `0`; otherwise an optionally signed decimal literal; `none`
models `NaN`. -/
def jsNumber (s : String) : Option Rat :=
  match listTrim s.toList with
  | [] => some 0
  | '+' :: rest => jsNumberCore rest
  | '-' :: rest => (jsNumberCore rest).map (fun q => -q)
  | cs => jsNumberCore cs

/-- Model of JavaScript `parseInt(s, 10)`: trims, optional sign, then the
longest leading digit run; `none` models `NaN` (no leading digits). -/
def jsParseIntCore (cs : List Char) : Option Int :=
  let d := cs.takeWhile Char.isDigit
  if d.isEmpty then none else some (digitsToNat d : Int)

/-- Signed wrapper for `jsParseIntCore`. -/
def jsParseInt (s : String) : Option Int :=
  match listTrim s.toList with
  | '+' :: rest => jsParseIntCore rest
  | '-' :: rest => (jsParseIntCore rest).map (fun n => -n)
  | cs => jsParseIntCore cs

/-- Model of JavaScript `parseFloat(s)`: trims, optional sign, then the
longest leading decimal literal; `none` models `NaN`. -/
def jsParseFloatCore (cs : List Char) : Option Rat :=
  let intPart := cs.takeWhile Char.isDigit
  let rest := cs.dropWhile Char.isDigit
  match rest with
  | '.' :: fracs =>
    let fracPart := fracs.takeWhile Char.isDigit
    if intPart.isEmpty && fracPart.isEmpty then none
    else some ((digitsToNat intPart : Rat) +
      (digitsToNat fracPart : Rat) / ((10 : Rat) ^ fracPart.length))
  | _ => if intPart.isEmpty then none else some (digitsToNat intPart : Rat)

/-- Signed wrapper for `jsParseFloatCore`. -/
def jsParseFloat (s : String) : Option Rat :=
  match listTrim s.toList with
  | '+' :: rest => jsParseFloatCore rest
  | '-' :: rest => (jsParseFloatCore rest).map (fun q => -q)
  | cs => jsParseFloatCore cs

/-- Whether `needle` occurs as a contiguous sublist of the second list. -/
def listHasInfix (needle : List Char) : List Char → Bool
  | [] => needle.isEmpty
  | c :: rest => needle.isPrefixOf (c :: rest) || listHasInfix needle rest

/-- Model of JavaScript `s.includes(sub)`. -/
def jsIncludes (s sub : String) : Bool :=
  listHasInfix sub.toList s.toList

/-- Association-list lookup used to model JavaScript object / `Map` reads. -/
def alistGet (k : String) : List (String × String) → Option String
  | [] => none
  | (k', v) :: rest => if k' = k then some v else alistGet k rest

/-- Association-list write modelling JavaScript object / `Map` assignment:
an existing key keeps its position and gets the new value, a new key is
appended (insertion order). -/
def alistSet (m : List (String × String)) (k v : String) : List (String × String) :=
  if m.any (fun p => p.1 = k) then
    m.map (fun p => if p.1 = k then (k, v) else p)
  else m ++ [(k, v)]

/-- Model of the object spread `\x7b...old, ...new\x7d`: every entry of `upd`
is written over `old`, so a key present in both takes the value from `upd`. -/
def jsSpread (old upd : List (String × String)) : List (String × String) :=
  upd.foldl (fun acc p => alistSet acc p.1 p.2) old

/-! ## M3U8 parser (src/core/resolver/parsers/m3u8.parser.ts)

Embedding of `M3U8Parser`.  JavaScript numbers appearing in parsed fields
are modelled as follows: `bandwidth` is assigned whenever the attribute is
truthy, even when `parseInt` yields `NaN`, so it is an
`Option (Option Int)` (outer `none` = field absent, inner `none` = `NaN`);
`resolution` and `frameRate` are only assigned after a `!isNaN` check, so
they carry plain values.
-/

/-- Parsed variant record (shape of `StreamVariant` in types/dto.ts). -/
structure StreamVariant where
  uri : String
  bandwidth : Option (Option Int) := none
  codecs : Option String := none
  resolution : Option (Rat × Rat) := none
  frameRate : Option Rat := none
deriving Repr, DecidableEq

/-- In-progress variant before its URI line has been consumed
(`Partial<StreamVariant>` in the source). -/
structure PartialStreamVariant where
  uri : Option String := none
  bandwidth : Option (Option Int) := none
  codecs : Option String := none
  resolution : Option (Rat × Rat) := none
  frameRate : Option Rat := none
deriving Repr, DecidableEq

/-- Parsed encryption record (shape of `StreamEncryption`). -/
structure StreamEncryption where
  method : String
  keyUri : Option String := none
deriving Repr, DecidableEq

/-- Result shape of `M3U8Parser.parseManifest` (`ParsedM3U8`). -/
structure ParsedM3U8 where
  isLive : Bool
  isLowLatency : Bool
  variants : List StreamVariant
  mediaPlaylists : List String
  encryption : Option StreamEncryption
deriving Repr, DecidableEq

/-- Character class of the attribute-key regex fragment. -/
def attrKeyChar (c : Char) : Bool :=
  ('A' ≤ c && c ≤ 'Z') || ('0' ≤ c && c ≤ '9') || c = '-'

/-- One attempt of the attribute regex at the current position: a maximal
nonempty run of key characters, then a literal equals sign, then a maximal
nonempty run of non-comma characters.  Returns the pair and the rest of the
input after the match. -/
def attrTryMatch (l : List Char) : Option ((String × String) × List Char) :=
  let ks := l.takeWhile attrKeyChar
  let r1 := l.dropWhile attrKeyChar
  match r1 with
  | '=' :: r2 =>
    let vs := r2.takeWhile (fun c => c ≠ ',')
    if vs.isEmpty then none
    else some ((String.mk ks, String.mk vs), r2.dropWhile (fun c => c ≠ ','))
  | _ => none

/-- Global-regex scan: at each position try the attribute pattern, emitting
a match and resuming after it, otherwise advance one character.  The fuel
equals the input length; every step consumes at least one character. -/
def scanAttrsGo : Nat → List Char → List (String × String)
  | 0, _ => []
  | _ + 1, [] => []
  | fuel + 1, c :: rest =>
    if attrKeyChar c then
      match attrTryMatch (c :: rest) with
      | some (kv, remaining) => kv :: scanAttrsGo fuel remaining
      | none => scanAttrsGo fuel rest
    else scanAttrsGo fuel rest

/-- All key-value matches of the attribute regex over the input. -/
def scanAttrs (cs : List Char) : List (String × String) :=
  scanAttrsGo cs.length cs

/-- Strip one pair of surrounding double quotes, if present. -/
def unquoteIfQuoted (v : String) : String :=
  if jsStartsWith v "\"" && jsEndsWith v "\"" then
    String.mk ((v.toList.drop 1).dropLast)
  else v

/-- Remove every double quote (the `replace` against a quote regex). -/
def removeQuotes (v : String) : String :=
  String.mk (v.toList.filter (fun c => c ≠ '"'))

/-- Embedding of `M3U8Parser.parseAttributes`: drop the text before the
first colon, scan `KEY=value` pairs, unquote fully quoted values, and store
them object-style (later duplicates overwrite). -/
def parseAttributes (line : String) : List (String × String) :=
  let attributePart := String.intercalate ":" ((jsSplit line ":").drop 1)
  (scanAttrs attributePart.toList).foldl
    (fun m kv => alistSet m kv.1 (unquoteIfQuoted kv.2)) []

/-- Prefix of the base URL up to and including its last slash. -/
def lastSlashSplit (base : String) : String :=
  String.mk ((base.toList.reverse.dropWhile (fun c => c ≠ '/')).reverse)

/-- Scheme and host of an http(s) base URL. -/
def urlOrigin (base : String) : String :=
  if jsStartsWith base "http://" then
    "http://" ++ String.mk ((base.toList.drop 7).takeWhile (fun c => c ≠ '/'))
  else if jsStartsWith base "https://" then
    "https://" ++ String.mk ((base.toList.drop 8).takeWhile (fun c => c ≠ '/'))
  else ""

/-- Model of the `new URL(url, baseUrl).href` builtin restricted to the
cases arising here: an absolute-path url resolves against the base's
origin, any other relative url against the base's directory; a non-http(s)
base throws (`none`).  Dot-segment normalisation is not modelled. -/
def jsNewUrlHref (url base : String) : Option String :=
  if jsStartsWith base "http://" || jsStartsWith base "https://" then
    if jsStartsWith url "/" then some (urlOrigin base ++ url)
    else some (lastSlashSplit base ++ url)
  else none

/-- Embedding of `M3U8Parser.resolveUrl`: absolute URLs pass through, other
URLs are resolved against the base; a URL-constructor throw is caught and
the raw url returned. -/
def resolveUrl (url baseUrl : String) : String :=
  if jsStartsWith url "http://" || jsStartsWith url "https://" then url
  else
    match jsNewUrlHref url baseUrl with
    | some href => href
    | none => url

/-- Embedding of `M3U8Parser.parseStreamInf`. -/
def parseStreamInf (line : String) : PartialStreamVariant :=
  let attributes := parseAttributes line
  let bandwidth :=
    match alistGet "BANDWIDTH" attributes with
    | some v => if v ≠ "" then some (jsParseInt v) else none
    | none => none
  let codecs :=
    match alistGet "CODECS" attributes with
    | some v => if v ≠ "" then some (removeQuotes v) else none
    | none => none
  let resolution :=
    match alistGet "RESOLUTION" attributes with
    | some v =>
      if v ≠ "" then
        let nums := (jsSplit v "x").map jsNumber
        match nums.get? 0, nums.get? 1 with
        | some (some w), some (some h) => some (w, h)
        | _, _ => none
      else none
    | none => none
  let frameRate :=
    match alistGet "FRAME-RATE" attributes with
    | some v =>
      if v ≠ "" then
        match jsParseFloat v with
        | some q => some q
        | none => none
      else none
    | none => none
  { uri := none, bandwidth := bandwidth, codecs := codecs,
    resolution := resolution, frameRate := frameRate }

/-- Embedding of `M3U8Parser.parseEncryption`. -/
def parseEncryption (line baseUrl : String) : Option StreamEncryption :=
  let attributes := parseAttributes line
  match alistGet "METHOD" attributes with
  | none => none
  | some mv =>
    if mv = "" then none
    else
      let method := removeQuotes mv
      if method = "AES-128" || method = "SAMPLE-AES" || method = "NONE" then
        let keyUri :=
          match alistGet "URI" attributes with
          | some uv =>
            if uv ≠ "" && method ≠ "NONE" then
              some (resolveUrl (removeQuotes uv) baseUrl)
            else none
          | none => none
        some { method := method, keyUri := keyUri }
      else none

/-- Embedding of `M3U8Parser.parseMedia`. -/
def parseMedia (line : String) : Option String :=
  match alistGet "URI" (parseAttributes line) with
  | some uv => if uv ≠ "" then some (removeQuotes uv) else none
  | none => none

/-- Loop state of `parseManifest`. -/
structure ParseState where
  result : ParsedM3U8
  currentVariant : PartialStreamVariant
  isProcessingVariant : Bool
deriving Repr, DecidableEq

/-- Complete a pending variant with its URI line. -/
def finishVariant (pv : PartialStreamVariant) (uri : String) : StreamVariant :=
  { uri := uri, bandwidth := pv.bandwidth, codecs := pv.codecs,
    resolution := pv.resolution, frameRate := pv.frameRate }

/-- One iteration of the `parseManifest` line loop. -/
def parseLine (baseUrl : String) (st : ParseState) (line : String) : ParseState :=
  if !(jsStartsWith line "#") then
    if st.isProcessingVariant && st.currentVariant.uri = none then
      { st with
        result := { st.result with
          variants := st.result.variants ++
            [finishVariant st.currentVariant (resolveUrl line baseUrl)] },
        currentVariant := {},
        isProcessingVariant := false }
    else if jsIncludes line ".m3u8" then
      { st with result := { st.result with
          mediaPlaylists := st.result.mediaPlaylists ++ [resolveUrl line baseUrl] } }
    else st
  else if jsStartsWith line "#EXT-X-STREAM-INF:" then
    { st with currentVariant := parseStreamInf line, isProcessingVariant := true }
  else if jsStartsWith line "#EXT-X-ENDLIST" then
    { st with result := { st.result with isLive := false } }
  else if jsStartsWith line "#EXT-X-PART" || jsStartsWith line "#EXT-X-PRELOAD-HINT" then
    { st with result := { st.result with isLowLatency := true } }
  else if jsStartsWith line "#EXT-X-KEY:" then
    { st with result := { st.result with encryption := parseEncryption line baseUrl } }
  else if jsStartsWith line "#EXT-X-MEDIA:" then
    match parseMedia line with
    | some mediaUrl =>
      { st with result := { st.result with
          mediaPlaylists := st.result.mediaPlaylists ++ [resolveUrl mediaUrl baseUrl] } }
    | none => st
  else st

/-- The trimmed nonempty lines the parser iterates over. -/
def manifestLines (content : String) : List String :=
  ((jsSplit content "\n").map jsTrim).filter (fun l => l ≠ "")

/-- Initial loop state of `parseManifest`. -/
def initialParseState : ParseState :=
  { result := { isLive := true, isLowLatency := false, variants := [],
                mediaPlaylists := [], encryption := none },
    currentVariant := {}, isProcessingVariant := false }

/-- Embedding of `M3U8Parser.parseManifest`. -/
def parseManifest (content baseUrl : String) : ParsedM3U8 :=
  ((manifestLines content).foldl (parseLine baseUrl) initialParseState).result

/-- Embedding of `M3U8Parser.isValidM3U8`: the first raw line (before the
first newline) must trim to something starting with the header tag, and
some line must trim to something starting with an extension tag. -/
def isValidM3U8 (content : String) : Bool :=
  let lines := jsSplit content "\n"
  if !(jsStartsWith (jsTrim (lines.headD "")) "#EXTM3U") then false
  else lines.any (fun l => jsStartsWith (jsTrim l) "#EXT-X-")

/-- Embedding of `M3U8Parser.isMasterPlaylist`. -/
def isMasterPlaylist (content : String) : Bool :=
  jsIncludes content "#EXT-X-STREAM-INF"

/-! ### Prefix helper lemmas -/

lemma jsStartsWith_trans {s p q : String} (hs : jsStartsWith s p = true)
    (hp : jsStartsWith p q = true) : jsStartsWith s q = true := by
  simp only [jsStartsWith, List.isPrefixOf_iff_prefix] at *
  exact hp.trans hs

lemma jsStartsWith_excl {s p q : String}
    (hpq : (p.toList.isPrefixOf q.toList || q.toList.isPrefixOf p.toList) = false)
    (hp : jsStartsWith s p = true) : jsStartsWith s q = false := by
  simp only [jsStartsWith] at hp ⊢
  rw [List.isPrefixOf_iff_prefix] at hp
  by_contra h
  rw [Bool.not_eq_false, List.isPrefixOf_iff_prefix] at h
  rcases List.prefix_or_prefix_of_prefix hp h with hc | hc
  · have hb : p.toList.isPrefixOf q.toList = true := List.isPrefixOf_iff_prefix.mpr hc
    simp only [String.toList] at hb
    simp [hb] at hpq
  · have hb : q.toList.isPrefixOf p.toList = true := List.isPrefixOf_iff_prefix.mpr hc
    simp only [String.toList] at hb
    simp [hb] at hpq

lemma ne_empty_of_jsStartsWith {s p : String} (h : jsStartsWith s p = true)
    (hp : p ≠ "") : s ≠ "" := by
  intro hs
  subst hs
  simp only [jsStartsWith, List.isPrefixOf_iff_prefix] at h
  have : p.toList = [] := List.prefix_nil.mp (by simpa using h)
  exact hp (by simpa using congrArg String.mk this)

/-! ### C5: the end-of-list tag is the sole determinant of isLive -/

lemma parseLine_isLive (baseUrl : String) (st : ParseState) (line : String) :
    (parseLine baseUrl st line).result.isLive
      = (st.result.isLive && !(jsStartsWith line "#EXT-X-ENDLIST")) := by
  by_cases hE : jsStartsWith line "#EXT-X-ENDLIST" = true
  · have h1 : jsStartsWith line "#" = true := jsStartsWith_trans hE (by decide)
    have h2 : jsStartsWith line "#EXT-X-STREAM-INF:" = false :=
      jsStartsWith_excl (by decide) hE
    simp [parseLine, h1, h2, hE]
  · simp only [Bool.not_eq_true] at hE
    simp only [hE, Bool.not_false, Bool.and_true]
    unfold parseLine
    repeat' split
    all_goals first | rfl | simp_all

lemma foldl_parseLine_isLive (baseUrl : String) (ls : List String) (st : ParseState) :
    ((ls.foldl (parseLine baseUrl) st).result.isLive)
      = (st.result.isLive && !(ls.any (fun l => jsStartsWith l "#EXT-X-ENDLIST"))) := by
  induction ls generalizing st with
  | nil => simp
  | cons l ls ih =>
    simp [List.foldl_cons, ih, parseLine_isLive, Bool.and_assoc]

/-- C5.  For every input text, `parseManifest` reports `isLive = true`
exactly when no (trimmed) line of the text starts with the end-of-list tag
`#EXT-X-ENDLIST`, and `isLive = false` exactly when such a line is present:
the presence or absence of the end-of-list tag is the sole determinant of
the `isLive` field.  This holds for all text, in particular for every valid
M3U8 text. -/
theorem parseManifest_isLive_eq_no_endlist_tag (content baseUrl : String) :
    (parseManifest content baseUrl).isLive
      = !((jsSplit content "\n").any
          (fun l => jsStartsWith (jsTrim l) "#EXT-X-ENDLIST")) := by
  unfold parseManifest
  rw [foldl_parseLine_isLive]
  have hinit : initialParseState.result.isLive = true := rfl
  rw [hinit, Bool.true_and]
  congr 1
  unfold manifestLines
  rw [List.any_filter, List.any_map]
  congr 1
  funext l
  simp only [Function.comp]
  by_cases hE : jsStartsWith (jsTrim l) "#EXT-X-ENDLIST" = true
  · have hne : jsTrim l ≠ "" := ne_empty_of_jsStartsWith hE (by decide)
    simp [hE, hne]
  · simp only [Bool.not_eq_true] at hE
    simp [hE]

/-! ### C7: the validity check looks at the raw first line, not the first
non-empty line -/

/-- Validity as worded by the spec (for comparison with `isValidM3U8`): the
first non-empty line of the text starts with the playlist header tag, and
at least one extension tag is present in the text. -/
def specIsValidM3U8 (content : String) : Bool :=
  jsStartsWith (jsTrim (((jsSplit content "\n").filter (fun l => l ≠ "")).headD ""))
      "#EXTM3U"
    && (jsSplit content "\n").any (fun l => jsStartsWith (jsTrim l) "#EXT-X-")

/-- C7 counterexample.  A manifest whose header tag is preceded only by a
blank line satisfies the claim's validity condition (first non-empty line
starts with the header tag, an extension tag is present), yet
`isValidM3U8` rejects it, because the code checks the raw first line
`lines[0]`. -/
theorem isValidM3U8_first_line_counterexample :
    specIsValidM3U8 "\n#EXTM3U\n#EXT-X-VERSION:3" = true
    ∧ isValidM3U8 "\n#EXTM3U\n#EXT-X-VERSION:3" = false := by
  exact ⟨rfl, rfl⟩

/-- C7 amended.  `isValidM3U8` returns true exactly when the raw first
line of the text (the text before the first newline), after trimming,
starts with the playlist header tag `#EXTM3U`, and some line of the text
trims to one starting with an extension tag `#EXT-X-`; in particular a
manifest whose header tag is preceded by a blank line is invalid. -/
theorem isValidM3U8_iff_first_line_header (content : String) :
    isValidM3U8 content = true ↔
      (jsStartsWith (jsTrim ((jsSplit content "\n").headD "")) "#EXTM3U" = true
       ∧ ∃ l ∈ jsSplit content "\n", jsStartsWith (jsTrim l) "#EXT-X-" = true) := by
  unfold isValidM3U8
  by_cases h : jsStartsWith (jsTrim ((jsSplit content "\n").headD "")) "#EXTM3U" = true
  · simp [h, List.any_eq_true]
  · simp only [Bool.not_eq_true] at h
    simp [h]

/-! ### C6: RESOLUTION attribute parsing -/

lemma not_whitespace_of_digit {c : Char} (h : c.isDigit = true) :
    c.isWhitespace = false := by
  by_contra hw
  rw [Bool.not_eq_false] at hw
  simp only [Char.isWhitespace, Bool.or_eq_true, decide_eq_true_eq] at hw
  rcases hw with ((h1 | h1) | h1) | h1 <;> subst h1 <;> exact absurd h (by decide)

lemma listTrim_of_all_digits (ds : List Char) (hd : ∀ c ∈ ds, c.isDigit = true) :
    listTrim ds = ds := by
  have hno : ∀ c ∈ ds, c.isWhitespace = false := fun c hc =>
    not_whitespace_of_digit (hd c hc)
  unfold listTrim
  have h1 : ds.dropWhile Char.isWhitespace = ds := by
    cases ds with
    | nil => rfl
    | cons c cs => simp [List.dropWhile_cons, hno c (by simp)]
  rw [h1]
  have h2 : ds.reverse.dropWhile Char.isWhitespace = ds.reverse := by
    cases hrev : ds.reverse with
    | nil => rfl
    | cons c cs =>
      have hc : c ∈ ds := by
        have : c ∈ ds.reverse := by rw [hrev]; simp
        simpa using this
      simp [List.dropWhile_cons, hno c hc]
  rw [h2, List.reverse_reverse]

lemma jsNumberCore_all_digits (ds : List Char) (hne : ds ≠ [])
    (hd : ∀ c ∈ ds, c.isDigit = true) :
    jsNumberCore ds = some ((digitsToNat ds : Nat) : Rat) := by
  unfold jsNumberCore
  rw [List.takeWhile_eq_self_iff.mpr hd, List.dropWhile_eq_nil_iff.mpr hd]
  simp [List.isEmpty_iff, hne]

lemma jsNumber_all_digits (ds : List Char) (hne : ds ≠ [])
    (hd : ∀ c ∈ ds, c.isDigit = true) :
    jsNumber (String.mk ds) = some ((digitsToNat ds : Nat) : Rat) := by
  have htrim : listTrim (String.mk ds).toList = ds := by
    have h0 : (String.mk ds).toList = ds := rfl
    rw [h0]
    exact listTrim_of_all_digits ds hd
  unfold jsNumber
  rw [htrim]
  cases ds with
  | nil => exact absurd rfl hne
  | cons d rest =>
    have hdd : d.isDigit = true := hd d (by simp)
    have h1 : d ≠ '+' := by
      intro h; rw [h] at hdd; exact absurd hdd (by decide)
    have h2 : d ≠ '-' := by
      intro h; rw [h] at hdd; exact absurd hdd (by decide)
    split
    · simp_all
    · rename_i heq; rw [List.cons.injEq] at heq; exact absurd heq.1 h1
    · rename_i heq; rw [List.cons.injEq] at heq; exact absurd heq.1 h2
    · exact jsNumberCore_all_digits (d :: rest) (by simp) hd

lemma jsSplitGo_no_sep (x : Char) (fuel : Nat) (acc cs : List Char)
    (hfuel : cs.length ≤ fuel) (h : x ∉ cs) :
    jsSplitGo [x] fuel acc cs = [acc.reverse ++ cs] := by
  induction fuel generalizing acc cs with
  | zero =>
    have : cs = [] := List.length_eq_zero.mp (Nat.le_zero.mp hfuel)
    subst this
    simp [jsSplitGo]
  | succ n ih =>
    cases cs with
    | nil => simp [jsSplitGo]
    | cons c rest =>
      have hxc : ([x].isPrefixOf (c :: rest)) = false := by
        have : x ≠ c := fun hx => h (by simp [hx])
        simp [List.isPrefixOf, this]
      rw [jsSplitGo, hxc]
      simp only [Bool.false_eq_true, if_false]
      rw [ih (c :: acc) rest
        (by simp only [List.length_cons] at hfuel; omega)
        (fun hx => h (by simp [hx]))]
      simp

lemma jsSplitGo_one_sep (x : Char) (fuel : Nat) (acc ws hs : List Char)
    (hfuel : (ws ++ x :: hs).length ≤ fuel) (hws : x ∉ ws) (hhs : x ∉ hs) :
    jsSplitGo [x] fuel acc (ws ++ x :: hs) = [acc.reverse ++ ws, hs] := by
  induction ws generalizing acc fuel with
  | nil =>
    cases fuel with
    | zero => simp at hfuel
    | succ n =>
      simp only [List.nil_append]
      rw [jsSplitGo]
      have hpre : ([x].isPrefixOf (x :: hs)) = true := by
        simp [List.isPrefixOf]
      rw [hpre]
      simp only [if_true]
      rw [show ((x :: hs).drop ([x] : List Char).length) = hs by simp]
      rw [jsSplitGo_no_sep x n [] hs
        (by simp only [List.nil_append, List.length_cons] at hfuel; omega) hhs]
      simp
  | cons w ws' ih =>
    cases fuel with
    | zero => simp at hfuel
    | succ n =>
      simp only [List.cons_append]
      rw [jsSplitGo]
      have hxw : ([x].isPrefixOf (w :: (ws' ++ x :: hs))) = false := by
        have : x ≠ w := fun hx => hws (by simp [hx])
        simp [List.isPrefixOf, this]
      rw [hxw]
      simp only [Bool.false_eq_true, if_false]
      rw [ih n (w :: acc)
        (by simp only [List.cons_append, List.length_cons, List.length_append] at hfuel ⊢; omega)
        (fun hx => hws (by simp [hx]))]
      simp

lemma jsSplit_one_sep (ws hs : List Char) (x : Char) (hws : x ∉ ws) (hhs : x ∉ hs) :
    jsSplit (String.mk (ws ++ x :: hs)) (String.mk [x])
      = [String.mk ws, String.mk hs] := by
  unfold jsSplit
  have h1 : (String.mk [x]).toList = [x] := rfl
  have h2 : (String.mk (ws ++ x :: hs)).toList = ws ++ x :: hs := rfl
  rw [h1, h2, jsSplitGo_one_sep x _ [] ws hs le_rfl hws hhs]
  simp

lemma jsSplit_x (ws hs : List Char) (hws : 'x' ∉ ws) (hhs : 'x' ∉ hs) :
    jsSplit (String.mk (ws ++ 'x' :: hs)) "x" = [String.mk ws, String.mk hs] :=
  jsSplit_one_sep ws hs 'x' hws hhs

/-- C6 counterexample.  The malformed resolution string `x720` (no width
component) does not leave the `resolution` field absent: JavaScript
converts the empty width component to the number 0, so the parsed variant
carries `resolution = (0, 720)`.  The second conjunct records that the
width component of the attribute value is indeed empty. -/
theorem parseStreamInf_malformed_resolution_present :
    (parseStreamInf "#EXT-X-STREAM-INF:RESOLUTION=x720").resolution
        = some ((0 : Rat), (720 : Rat))
    ∧ (jsSplit "x720" "x").headD "" = "" := by
  exact ⟨rfl, rfl⟩

/-- C6 amended.  A `RESOLUTION=WxH` attribute with `W` and `H` nonempty
decimal digit strings yields `resolution = (W, H)` exactly; and whenever
the field is present it consists exactly of the JavaScript numeric values
of the first two x-separated components of the attribute value (so a
malformed value never causes a parse failure: the field is simply absent
when a component is missing or fails numeric conversion, while components
that still convert — such as the empty string, which converts to 0 — yield
a present field). -/
theorem parseStreamInf_resolution_characterization :
    (∀ (line : String) (ws hs : List Char),
        ws ≠ [] → hs ≠ [] →
        (∀ c ∈ ws, c.isDigit = true) → (∀ c ∈ hs, c.isDigit = true) →
        alistGet "RESOLUTION" (parseAttributes line)
          = some (String.mk (ws ++ 'x' :: hs)) →
        (parseStreamInf line).resolution
          = some (((digitsToNat ws : Nat) : Rat), ((digitsToNat hs : Nat) : Rat)))
    ∧ (∀ (line v : String) (w h : Rat),
        alistGet "RESOLUTION" (parseAttributes line) = some v →
        (parseStreamInf line).resolution = some (w, h) →
        ∃ vw vh, (jsSplit v "x")[0]? = some vw ∧ (jsSplit v "x")[1]? = some vh
          ∧ jsNumber vw = some w ∧ jsNumber vh = some h) := by
  constructor
  · intro line ws hs hwne hhne hwd hhd hattr
    have hxw : 'x' ∉ ws := fun hx => absurd (hwd 'x' hx) (by decide)
    have hxh : 'x' ∉ hs := fun hx => absurd (hhd 'x' hx) (by decide)
    have hvne : (String.mk (ws ++ 'x' :: hs)) ≠ "" := by
      intro h0
      have h1 := congrArg String.data h0
      simp at h1
    simp only [parseStreamInf]
    rw [hattr]
    simp only [hvne, if_true, ne_eq, not_false_iff]
    rw [jsSplit_x ws hs hxw hxh]
    simp [jsNumber_all_digits ws hwne hwd, jsNumber_all_digits hs hhne hhd]
  · intro line v w h hattr hres
    simp only [parseStreamInf] at hres
    rw [hattr] at hres
    by_cases hv : v = ""
    · simp [hv] at hres
    · simp only [hv, ne_eq, not_false_iff, if_true] at hres
      split at hres
      · rename_i w' h' heq1 heq2
        rw [Option.some.injEq, Prod.mk.injEq] at hres
        obtain ⟨hw, hh⟩ := hres
        rw [List.get?_eq_getElem?, List.getElem?_map] at heq1 heq2
        rcases Option.map_eq_some'.mp heq1 with ⟨vw, hvw, hvw2⟩
        rcases Option.map_eq_some'.mp heq2 with ⟨vh, hvh, hvh2⟩
        exact ⟨vw, vh, hvw, hvh, by rw [hvw2, hw], by rw [hvh2, hh]⟩
      · exact absurd hres (by simp)

/-- C6 witness: both halves of the characterization applied at
`RESOLUTION=854x480`. -/
theorem parseStreamInf_resolution_witness :
    (parseStreamInf "#EXT-X-STREAM-INF:RESOLUTION=854x480").resolution
        = some (((854 : Nat) : Rat), ((480 : Nat) : Rat))
    ∧ ∃ vw vh, (jsSplit "854x480" "x")[0]? = some vw
        ∧ (jsSplit "854x480" "x")[1]? = some vh
        ∧ jsNumber vw = some ((854 : Nat) : Rat)
        ∧ jsNumber vh = some ((480 : Nat) : Rat) := by
  have h1 := parseStreamInf_resolution_characterization.1
    "#EXT-X-STREAM-INF:RESOLUTION=854x480" ['8', '5', '4'] ['4', '8', '0']
    (by decide) (by decide) (by decide) (by decide) rfl
  exact ⟨h1, parseStreamInf_resolution_characterization.2
    "#EXT-X-STREAM-INF:RESOLUTION=854x480" "854x480" _ _ rfl h1⟩

/-! ## Request interceptor (core/resolver/interceptors/request-interceptor.ts)

Embedding of `RequestInterceptor`.  A rule's `test` and `handle` are
arbitrary JavaScript functions and may throw: they are modelled as
`Except Unit`-valued functions, `Except.error ()` standing for a thrown
exception, which the handler's surrounding try/catch intercepts.  The
intercepted request's settlement calls — `request.abort()` and
`request.continue()` — are recorded as a trace list so that the number of
settlement calls on each control path is visible.
-/

/-- The fields of a puppeteer `HTTPRequest` read by the interceptor. -/
structure HTTPRequest where
  url : String
  resourceType : String
deriving Repr, DecidableEq

/-- The `InterceptAction` enum (`CONTINUE` is written `cont`). -/
inductive InterceptAction
  | cont
  | abort
  | modify
deriving Repr, DecidableEq

/-- The `InterceptResult` shape. -/
structure InterceptResult where
  action : InterceptAction
  reason : Option String := none
  modifiedUrl : Option String := none
deriving Repr, DecidableEq

/-- The `InterceptRule` shape; higher `priority` is evaluated first. -/
structure InterceptRule where
  name : String
  priority : Int
  test : HTTPRequest → Except Unit Bool
  handle : HTTPRequest → Except Unit InterceptResult

/-- The `RequestInterceptorConfig` shape. -/
structure RequestInterceptorConfig where
  rules : List InterceptRule
  logBlocked : Bool := false
  logAllowed : Bool := false
  sessionId : Option String := none

/-- Stable insertion step: the new element goes after every element whose
key is at least its own, so equal keys keep their original order. -/
def insertByPriority (key : α → Int) (r : α) : List α → List α
  | [] => [r]
  | x :: xs =>
    if key r ≤ key x then x :: insertByPriority key r xs
    else r :: x :: xs

/-- Model of the constructor's
`config.rules.sort((a, b) => b.priority - a.priority)`: the JavaScript
sort is stable and orders by descending priority, realised here as a
stable insertion sort processing the rules in registration order. -/
def sortByPriorityDesc (key : α → Int) (rs : List α) : List α :=
  rs.foldl (fun acc r => insertByPriority key r acc) []

/-- The sorted rule array held by a `RequestInterceptor`. -/
def interceptorRules (cfg : RequestInterceptorConfig) : List InterceptRule :=
  sortByPriorityDesc (fun r => r.priority) cfg.rules

/-- A settlement call on the request. -/
inductive Settle
  | abort
  | cont
deriving Repr, DecidableEq

/-- The rule loop of `handleRequest`: `some s` when the loop settled the
request with `s` and returned (`ABORT` aborts, `MODIFY` continues),
`none` when the loop fell through, `Except.error` when a rule's `test` or
`handle` threw. -/
def interceptLoop (req : HTTPRequest) : List InterceptRule → Except Unit (Option Settle)
  | [] => Except.ok none
  | r :: rest =>
    match r.test req with
    | Except.error e => Except.error e
    | Except.ok false => interceptLoop req rest
    | Except.ok true =>
      match r.handle req with
      | Except.error e => Except.error e
      | Except.ok res =>
        match res.action with
        | InterceptAction.abort => Except.ok (some Settle.abort)
        | InterceptAction.modify => Except.ok (some Settle.cont)
        | InterceptAction.cont => interceptLoop req rest

/-- Embedding of `handleRequest` as the trace of settlement calls it makes
on the request: the loop's own settlement, the trailing
`request.continue()` on fall-through, or the catch block's
`request.continue()` when a rule threw. -/
def handleRequestTrace (rules : List InterceptRule) (req : HTTPRequest) : List Settle :=
  match interceptLoop req rules with
  | Except.ok (some s) => [s]
  | Except.ok none => [Settle.cont]
  | Except.error _ => [Settle.cont]

/-- Whether a rule matches the request and decides abort. -/
def ruleMatchesAborts (req : HTTPRequest) (r : InterceptRule) : Bool :=
  match r.test req, r.handle req with
  | Except.ok true, Except.ok res => res.action = InterceptAction.abort
  | _, _ => false

/-- Decision the spec describes over an already-ordered rule list: the
first matching rule whose decision is abort wins; if no matching rule
aborts, the request is allowed. -/
def specDecision (rules : List InterceptRule) (req : HTTPRequest) : Settle :=
  match rules.find? (ruleMatchesAborts req) with
  | some _ => Settle.abort
  | none => Settle.cont

/-- The spec's evaluation order on registration-indexed rules: strictly
higher priority first, ties broken by lower registration index. -/
def specOrdered (a b : Nat × InterceptRule) : Prop :=
  b.2.priority < a.2.priority ∨ (a.2.priority = b.2.priority ∧ a.1 < b.1)

/-- The stable sort applied to registration-indexed rules. -/
def sortEnumRules (rs : List InterceptRule) : List (Nat × InterceptRule) :=
  sortByPriorityDesc (fun p => p.2.priority) rs.enum

/-- A rule that behaves as the spec's data model demands at the given
request: its predicate and decision return without throwing, and the
decision is continue or abort (never the unused modify). -/
def ruleWellBehavedAt (req : HTTPRequest) (r : InterceptRule) : Prop :=
  (∃ b, r.test req = Except.ok b) ∧
  ∃ res, r.handle req = Except.ok res ∧ res.action ≠ InterceptAction.modify

/-! ### C4 machinery: the stable sort orders by (priority desc, registration
asc), and evaluation takes the first matching abort -/

lemma mem_insertByPriority {α : Type} {key : α → Int} {r x : α} {l : List α} :
    x ∈ insertByPriority key r l ↔ x = r ∨ x ∈ l := by
  induction l with
  | nil => simp [insertByPriority]
  | cons y ys ih =>
    unfold insertByPriority
    split
    · simp only [List.mem_cons, ih]
      tauto
    · simp [List.mem_cons]

lemma insertByPriority_perm {α : Type} (key : α → Int) (r : α) (l : List α) :
    (insertByPriority key r l).Perm (r :: l) := by
  induction l with
  | nil => simp [insertByPriority]
  | cons y ys ih =>
    unfold insertByPriority
    split
    · exact List.Perm.trans (List.Perm.cons y ih) (List.Perm.swap r y ys)
    · exact List.Perm.refl _

lemma sortByPriorityDesc_fold_perm {α : Type} (key : α → Int) :
    ∀ (rs acc : List α),
      (rs.foldl (fun acc r => insertByPriority key r acc) acc).Perm (acc ++ rs) := by
  intro rs
  induction rs with
  | nil => intro acc; simp
  | cons r rest ih =>
    intro acc
    simp only [List.foldl_cons]
    refine (ih (insertByPriority key r acc)).trans ?_
    refine (((insertByPriority_perm key r acc)).append_right rest).trans ?_
    exact List.perm_middle.symm

lemma sortByPriorityDesc_perm {α : Type} (key : α → Int) (rs : List α) :
    (sortByPriorityDesc key rs).Perm rs := by
  simpa [sortByPriorityDesc] using sortByPriorityDesc_fold_perm key rs []

lemma insert_pairwise_specOrdered (r : Nat × InterceptRule)
    (l : List (Nat × InterceptRule)) (hl : l.Pairwise specOrdered)
    (hidx : ∀ x ∈ l, x.1 < r.1) :
    (insertByPriority (fun p => p.2.priority) r l).Pairwise specOrdered := by
  induction l with
  | nil => simp [insertByPriority]
  | cons x xs ih =>
    rw [List.pairwise_cons] at hl
    obtain ⟨hx, hxs⟩ := hl
    unfold insertByPriority
    split
    · rename_i hle
      rw [List.pairwise_cons]
      refine ⟨?_, ih hxs (fun y hy => hidx y (by simp [hy]))⟩
      intro y hy
      rcases mem_insertByPriority.mp hy with rfl | hy2
      · rcases lt_or_eq_of_le hle with hlt | heq
        · exact Or.inl hlt
        · exact Or.inr ⟨heq.symm, hidx x (by simp)⟩
      · exact hx y hy2
    · rename_i hgt
      rw [not_le] at hgt
      rw [List.pairwise_cons]
      refine ⟨?_, List.pairwise_cons.mpr ⟨hx, hxs⟩⟩
      intro y hy
      rcases List.mem_cons.mp hy with rfl | hy2
      · exact Or.inl hgt
      · rcases hx y hy2 with hlt | heq
        · exact Or.inl (hlt.trans hgt)
        · exact Or.inl (lt_of_le_of_lt (le_of_eq heq.1.symm) hgt)

lemma fold_pairwise_specOrdered :
    ∀ (rest acc : List (Nat × InterceptRule)),
      acc.Pairwise specOrdered →
      (∀ a ∈ acc, ∀ b ∈ rest, a.1 < b.1) →
      rest.Pairwise (fun a b => a.1 < b.1) →
      ((rest.foldl
        (fun acc r => insertByPriority (fun p => p.2.priority) r acc)
        acc)).Pairwise specOrdered := by
  intro rest
  induction rest with
  | nil =>
    intro acc h _ _
    simpa using h
  | cons r rest ih =>
    intro acc hacc hcross hrest
    rw [List.pairwise_cons] at hrest
    obtain ⟨hr, hrest'⟩ := hrest
    simp only [List.foldl_cons]
    apply ih
    · exact insert_pairwise_specOrdered r acc hacc
        (fun x hx => hcross x hx r (by simp))
    · intro a ha b hb
      rcases mem_insertByPriority.mp ha with rfl | ha2
      · exact hr b hb
      · exact hcross a ha2 b (by simp [hb])
    · exact hrest'

lemma sortEnumRules_pairwise (rs : List InterceptRule) :
    (sortEnumRules rs).Pairwise specOrdered := by
  apply fold_pairwise_specOrdered rs.enum [] (by simp) (by simp)
  have h2 : (rs.enum.map Prod.fst).Pairwise (· < ·) := by
    rw [List.enum_map_fst]
    exact List.pairwise_lt_range _
  exact (List.pairwise_map).mp h2

lemma map_snd_insertByPriority (r : Nat × InterceptRule)
    (l : List (Nat × InterceptRule)) :
    (insertByPriority (fun p => p.2.priority) r l).map Prod.snd
      = insertByPriority (fun q => q.priority) r.2 (l.map Prod.snd) := by
  induction l with
  | nil => rfl
  | cons x xs ih =>
    unfold insertByPriority
    by_cases h : r.2.priority ≤ x.2.priority
    · simp only [h, if_true, List.map_cons, ih]
    · simp only [h, if_false, List.map_cons]

lemma map_snd_sortEnumRules (rs : List InterceptRule) :
    (sortEnumRules rs).map Prod.snd = sortByPriorityDesc (fun r => r.priority) rs := by
  suffices h : ∀ (l acc : List (Nat × InterceptRule)),
      ((l.foldl (fun acc r => insertByPriority (fun p => p.2.priority) r acc) acc).map
        Prod.snd)
        = (l.map Prod.snd).foldl
            (fun acc r => insertByPriority (fun q => q.priority) r acc)
            (acc.map Prod.snd) by
    have h0 := h rs.enum []
    simpa [sortEnumRules, sortByPriorityDesc, List.enum_map_snd] using h0
  intro l
  induction l with
  | nil => intro acc; rfl
  | cons x xs ih =>
    intro acc
    simp only [List.foldl_cons, List.map_cons]
    rw [ih, map_snd_insertByPriority]

lemma interceptLoop_cons_test_false {req : HTTPRequest} {r : InterceptRule}
    (rest : List InterceptRule) (hb : r.test req = Except.ok false) :
    interceptLoop req (r :: rest) = interceptLoop req rest := by
  simp only [interceptLoop, hb]

lemma interceptLoop_cons_test_true {req : HTTPRequest} {r : InterceptRule}
    {res : InterceptResult} (rest : List InterceptRule)
    (hb : r.test req = Except.ok true) (hres : r.handle req = Except.ok res) :
    interceptLoop req (r :: rest)
      = match res.action with
        | InterceptAction.abort => Except.ok (some Settle.abort)
        | InterceptAction.modify => Except.ok (some Settle.cont)
        | InterceptAction.cont => interceptLoop req rest := by
  simp only [interceptLoop, hb, hres]

lemma handleRequestTrace_eq_specDecision (req : HTTPRequest) :
    ∀ (rules : List InterceptRule), (∀ r ∈ rules, ruleWellBehavedAt req r) →
      handleRequestTrace rules req = [specDecision rules req] := by
  intro rules
  induction rules with
  | nil => intro _; rfl
  | cons r rest ih =>
    intro hok
    obtain ⟨⟨b, hb⟩, res, hres, hmod⟩ := hok r (by simp)
    have hrest : ∀ r' ∈ rest, ruleWellBehavedAt req r' :=
      fun r' hr' => hok r' (by simp [hr'])
    cases b with
    | false =>
      have hm : ruleMatchesAborts req r = false := by
        simp [ruleMatchesAborts, hb]
      have hstep : handleRequestTrace (r :: rest) req = handleRequestTrace rest req := by
        unfold handleRequestTrace
        rw [interceptLoop_cons_test_false rest hb]
      rw [hstep, ih hrest]
      simp [specDecision, List.find?_cons, hm]
    | true =>
      cases hact : res.action with
      | modify => exact absurd hact hmod
      | abort =>
        have hm : ruleMatchesAborts req r = true := by
          simp [ruleMatchesAborts, hb, hres, hact]
        have hstep : handleRequestTrace (r :: rest) req = [Settle.abort] := by
          unfold handleRequestTrace
          rw [interceptLoop_cons_test_true rest hb hres, hact]
        rw [hstep]
        simp [specDecision, List.find?_cons, hm]
      | cont =>
        have hm : ruleMatchesAborts req r = false := by
          simp [ruleMatchesAborts, hb, hres, hact]
        have hstep : handleRequestTrace (r :: rest) req = handleRequestTrace rest req := by
          unfold handleRequestTrace
          rw [interceptLoop_cons_test_true rest hb hres, hact]
        rw [hstep, ih hrest]
        simp [specDecision, List.find?_cons, hm]

/-- C4.  For every registered rule set whose rules behave as the spec's
data model demands at the intercepted request (predicates and decisions
return without throwing, decisions are continue or abort), the
interceptor's rule array is the registration-indexed rule list sorted by
strictly descending priority with ties broken by registration order
(conjuncts 1-3), and the handler settles the request with exactly the
spec's decision: the first matching rule whose decision is abort wins, and
if no matching rule aborts the request is continued (conjunct 4). -/
theorem interceptor_first_matching_abort_wins
    (rs : List InterceptRule) (req : HTTPRequest)
    (hok : ∀ r ∈ rs, ruleWellBehavedAt req r) :
    (sortEnumRules rs).map Prod.snd = interceptorRules { rules := rs }
    ∧ (sortEnumRules rs).Perm rs.enum
    ∧ (sortEnumRules rs).Pairwise specOrdered
    ∧ handleRequestTrace (interceptorRules { rules := rs }) req
        = [specDecision (interceptorRules { rules := rs }) req] := by
  refine ⟨map_snd_sortEnumRules rs, sortByPriorityDesc_perm _ _,
    sortEnumRules_pairwise rs, ?_⟩
  apply handleRequestTrace_eq_specDecision
  intro r hr
  have hperm := sortByPriorityDesc_perm (fun r => r.priority) rs
  exact hok r (hperm.mem_iff.mp hr)

/-- Equal-priority rule whose decision is abort, registered first. -/
def tieRuleAbort : InterceptRule :=
  { name := "abort-rule", priority := 5,
    test := fun _ => Except.ok true,
    handle := fun _ => Except.ok { action := InterceptAction.abort } }

/-- Equal-priority rule whose decision is continue, registered second. -/
def tieRuleAllow : InterceptRule :=
  { name := "allow-rule", priority := 5,
    test := fun _ => Except.ok true,
    handle := fun _ => Except.ok { action := InterceptAction.cont } }

/-- A concrete intercepted request. -/
def tieRequest : HTTPRequest :=
  { url := "https://e/v.js", resourceType := "script" }

/-- C4 witness: the theorem applied to two matching rules of equal
priority, the first-registered aborting and the second allowing; the
handler aborts the request, so registration order wins the tie. -/
theorem interceptor_tie_break_witness :
    (∀ r ∈ [tieRuleAbort, tieRuleAllow], ruleWellBehavedAt tieRequest r)
    ∧ handleRequestTrace (interceptorRules { rules := [tieRuleAbort, tieRuleAllow] })
          tieRequest
        = [specDecision (interceptorRules { rules := [tieRuleAbort, tieRuleAllow] })
            tieRequest]
    ∧ handleRequestTrace (interceptorRules { rules := [tieRuleAbort, tieRuleAllow] })
          tieRequest
        = [Settle.abort] := by
  have hok : ∀ r ∈ [tieRuleAbort, tieRuleAllow], ruleWellBehavedAt tieRequest r := by
    intro r hr
    rcases List.mem_cons.mp hr with rfl | hr2
    · exact ⟨⟨true, rfl⟩, ⟨_, rfl, by decide⟩⟩
    rcases List.mem_cons.mp hr2 with rfl | hr3
    · exact ⟨⟨true, rfl⟩, ⟨_, rfl, by decide⟩⟩
    · exact absurd hr3 (List.not_mem_nil r)
  exact ⟨hok,
    (interceptor_first_matching_abort_wins [tieRuleAbort, tieRuleAllow]
      tieRequest hok).2.2.2, rfl⟩

/-! ### C10: the handler settles every request exactly once -/

lemma interceptLoop_throws (req : HTTPRequest) :
    ∀ (pre : List InterceptRule) (r : InterceptRule) (post : List InterceptRule),
      (∀ p ∈ pre, p.test req = Except.ok false) →
      r.test req = Except.error () →
      interceptLoop req (pre ++ r :: post) = Except.error () := by
  intro pre
  induction pre with
  | nil =>
    intro r post _ hthrow
    simp only [List.nil_append, interceptLoop, hthrow]
  | cons p pre' ih =>
    intro r post hpre hthrow
    have hp : p.test req = Except.ok false := hpre p (by simp)
    simp only [List.cons_append]
    rw [interceptLoop_cons_test_false _ hp]
    exact ih r post (fun q hq => hpre q (by simp [hq])) hthrow

/-- C10.  On every control path the request handler performs exactly one
settlement call: exactly one of `request.abort()` or `request.continue()`
is invoked (conjunct 1); whenever the rule loop throws, the catch block
continues the request (conjunct 2); in particular, when some rule's
predicate throws after all earlier rules declined to match, the request is
continued rather than left unsettled or settled twice (conjunct 3). -/
theorem handleRequest_settles_exactly_once
    (rules : List InterceptRule) (req : HTTPRequest) :
    (handleRequestTrace rules req).length = 1
    ∧ (interceptLoop req rules = Except.error () →
        handleRequestTrace rules req = [Settle.cont])
    ∧ ∀ pre r post, rules = pre ++ r :: post →
        (∀ p ∈ pre, p.test req = Except.ok false) →
        r.test req = Except.error () →
        handleRequestTrace rules req = [Settle.cont] := by
  refine ⟨?_, ?_, ?_⟩
  · rcases hI : interceptLoop req rules with e | os
    · simp [handleRequestTrace, hI]
    · cases os <;> simp [handleRequestTrace, hI]
  · intro he
    simp [handleRequestTrace, he]
  · intro pre r post hsplit hpre hthrow
    subst hsplit
    have hloop := interceptLoop_throws req pre r post hpre hthrow
    simp [handleRequestTrace, hloop]

/-- A rule whose predicate throws on every request. -/
def throwingRule : InterceptRule :=
  { name := "throwing", priority := 1,
    test := fun _ => Except.error (),
    handle := fun _ => Except.ok { action := InterceptAction.cont } }

/-- C10 witness: the theorem applied to a pipeline whose only rule throws;
the handler still settles the request exactly once, by continuing it. -/
theorem handleRequest_settles_witness :
    (handleRequestTrace [throwingRule] tieRequest).length = 1
    ∧ handleRequestTrace [throwingRule] tieRequest = [Settle.cont] := by
  refine ⟨(handleRequest_settles_exactly_once [throwingRule] tieRequest).1, ?_⟩
  exact (handleRequest_settles_exactly_once [throwingRule] tieRequest).2.2
    [] throwingRule [] rfl (fun p hp => absurd hp (List.not_mem_nil p)) rfl

/-! ## Passive detector (core/resolver/detectors/hls-detector.ts)

Embedding of `HLSDetector`.  The detector's event handlers become a step
function over an explicit state; the puppeteer / CDP events it subscribes
to become an event datatype.  The candidate `Map` is an insertion-ordered
association list.  The optional caller-supplied `m3u8Patterns` check
(`patterns.some(p => new RegExp(p).test(url))`, with its try/catch) is
modelled as one abstract predicate on the URL.  `Date.now()` is modelled
as a clock advancing once per event. -/

/-- Cookie shape (types/dto.ts). -/
structure Cookie where
  name : String
  value : String
  domain : Option String := none
  path : Option String := none
  expires : Option Int := none
  httpOnly : Option Bool := none
  secure : Option Bool := none
deriving Repr, DecidableEq

/-- Candidate shape (`HLSCandidate`); an absent content type is modelled
as the empty string, as the detector itself passes `''` for it. -/
structure HLSCandidate where
  url : String
  contentType : String
  headers : List (String × String)
  cookies : List Cookie
  detectedAt : Nat
  source : String
deriving Repr, DecidableEq

/-- Mutable state of one `HLSDetector`. -/
structure DetectorState where
  candidates : List (String × HLSCandidate)
  collectedHeaders : List (String × String)
  collectedCookies : List Cookie
  time : Nat
deriving Repr, DecidableEq

/-- A fresh detector. -/
def initialDetectorState : DetectorState :=
  { candidates := [], collectedHeaders := [], collectedCookies := [], time := 0 }

/-- Lookup in the candidate map. -/
def candMapGet (url : String) : List (String × HLSCandidate) → Option HLSCandidate
  | [] => none
  | (k, c) :: rest => if k = url then some c else candMapGet url rest

/-- `Map.set` on the candidate map: an existing key keeps its position. -/
def candMapSet (m : List (String × HLSCandidate)) (url : String) (c : HLSCandidate) :
    List (String × HLSCandidate) :=
  if m.any (fun p => p.1 = url) then
    m.map (fun p => if p.1 = url then (url, c) else p)
  else m ++ [(url, c)]

/-- Model of JavaScript `s.toLowerCase()`. -/
def jsToLower (s : String) : String :=
  String.mk (s.toList.map Char.toLower)

/-- The URL patterns of `isHlsManifest` / `isHLSCandidate`. -/
def hlsUrlPatterns : List String :=
  [".m3u8", "/hls/", "/hls-", "manifest.m3u8", "playlist.m3u8", "index.m3u8",
   "master.m3u8", "/engine/hls", "orbitcache.com", "urlset/index", "hls2-c"]

/-- The recognised HLS content types. -/
def hlsContentTypes : List String :=
  ["application/vnd.apple.mpegurl", "application/x-mpegurl", "audio/mpegurl",
   "audio/x-mpegurl"]

/-- Embedding of `HLSDetector.isHlsManifest`. -/
def isHlsManifest (url contentType : String) : Bool :=
  let u := jsToLower url
  let ct := jsToLower contentType
  if hlsUrlPatterns.any (fun pattern => jsIncludes u pattern) then true
  else hlsContentTypes.any (fun t => jsIncludes ct t)

/-- Embedding of `HLSDetector.isHLSCandidate`; `m3u8Patterns` abstracts
the optional caller-supplied regular-expression test. -/
def isHLSCandidate (m3u8Patterns : Option (String → Bool)) (url : String)
    (contentType : Option String) : Bool :=
  let u := jsToLower url
  if hlsUrlPatterns.any (fun pattern => jsIncludes u pattern) then true
  else if (match contentType with
           | some ct =>
             if ct ≠ "" then hlsContentTypes.any (fun t => jsIncludes (jsToLower ct) t)
             else false
           | none => false) then true
  else
    match m3u8Patterns with
    | some ptest => ptest url
    | none => false

/-- Embedding of `HLSDetector.normalizeHeaders` (keys lowered, later
duplicates overwrite). -/
def normalizeHeaders (h : List (String × String)) : List (String × String) :=
  h.foldl (fun out p => alistSet out (jsToLower p.1) p.2) []

/-- The header names `extractRelevantHeaders` keeps. -/
def importantHeaders : List String :=
  ["referer", "origin", "user-agent", "authorization", "x-forwarded-for",
   "x-real-ip", "range", "accept", "accept-language", "accept-encoding"]

/-- Embedding of `HLSDetector.extractRelevantHeaders`. -/
def extractRelevantHeaders (headers : List (String × String)) :
    List (String × String) :=
  headers.foldl
    (fun relevant p =>
      let lower := jsToLower p.1
      let r1 := if importantHeaders.any (fun i => i = lower) then
          alistSet relevant p.1 p.2
        else relevant
      if jsStartsWith lower "x-" && !(jsStartsWith lower "x-forwarded") then
        alistSet r1 p.1 p.2
      else r1)
    []

/-- Embedding of `HLSDetector.addCandidate`: a URL already in the map is
ignored entirely; otherwise a fresh candidate with empty headers and
cookies is appended. -/
def addCandidate (s : DetectorState) (url contentType : String) : DetectorState :=
  if s.candidates.any (fun p => p.1 = url) then s
  else
    { s with candidates := s.candidates ++
        [(url, { url := url, contentType := contentType, headers := [],
                 cookies := [], detectedAt := s.time, source := "response" })] }

/-- Embedding of `HLSDetector.collectHeaders`. -/
def collectHeaders (s : DetectorState) (headers : List (String × String)) :
    DetectorState :=
  { s with collectedHeaders :=
      jsSpread s.collectedHeaders (extractRelevantHeaders headers) }

/-- Embedding of `HLSDetector.handleRequest`. -/
def handleRequestEvt (m3u8Patterns : Option (String → Bool)) (s : DetectorState)
    (url : String) (headers : List (String × String)) : DetectorState :=
  let hdrs := normalizeHeaders headers
  let s1 :=
    if isHLSCandidate m3u8Patterns url none then
      addCandidate s url ((alistGet "content-type" hdrs).getD "")
    else s
  collectHeaders s1 hdrs

/-- Embedding of `HLSDetector.handleResponse` (puppeteer and CDP forms
both normalise to url, status and headers). -/
def handleResponseEvt (s : DetectorState) (url : String) (status : Int)
    (headers : List (String × String)) : DetectorState :=
  let hdrs := normalizeHeaders headers
  let contentType := (alistGet "content-type" hdrs).getD ""
  if isHlsManifest url contentType && 200 ≤ status && status < 400 then
    addCandidate s url contentType
  else s

/-- Embedding of `HLSDetector.handleRequestFinished`: `none` response
headers model `request.response()` being null; the content type is filled
only when previously empty, and the headers are merged by object spread
(later values overwrite). -/
def handleRequestFinishedEvt (s : DetectorState) (url : String)
    (responseHeaders : Option (List (String × String))) : DetectorState :=
  match responseHeaders with
  | none => s
  | some rh =>
    if !(s.candidates.any (fun p => p.1 = url)) then s
    else
      match candMapGet url s.candidates with
      | none => s
      | some cand =>
        let hdrs := normalizeHeaders rh
        let cand1 :=
          if cand.contentType = "" then
            (match alistGet "content-type" hdrs with
             | some ct => if ct ≠ "" then { cand with contentType := ct } else cand
             | none => cand)
          else cand
        let cand2 :=
          { cand1 with
            headers := jsSpread cand1.headers (extractRelevantHeaders hdrs) }
        { s with candidates := candMapSet s.candidates url cand2 }

/-- One network observation delivered to the detector. -/
inductive NetEvent
  | request (url : String) (headers : List (String × String))
  | response (url : String) (status : Int) (headers : List (String × String))
  | requestFinished (url : String)
      (responseHeaders : Option (List (String × String)))

/-- One event dispatch; the clock advances once per event. -/
def detectorStep (m3u8Patterns : Option (String → Bool)) (s : DetectorState) :
    NetEvent → DetectorState
  | NetEvent.request url headers =>
    let s' := handleRequestEvt m3u8Patterns s url headers
    { s' with time := s'.time + 1 }
  | NetEvent.response url status headers =>
    let s' := handleResponseEvt s url status headers
    { s' with time := s'.time + 1 }
  | NetEvent.requestFinished url rh =>
    let s' := handleRequestFinishedEvt s url rh
    { s' with time := s'.time + 1 }

/-- A whole observation sequence processed by a fresh detector. -/
def runDetector (m3u8Patterns : Option (String → Bool)) (evs : List NetEvent) :
    DetectorState :=
  evs.foldl (detectorStep m3u8Patterns) initialDetectorState

/-- Embedding of `HLSDetector.getCandidates`. -/
def getCandidates (s : DetectorState) : List HLSCandidate :=
  s.candidates.map Prod.snd

/-! ### C8 machinery: candidate-map lemmas -/

lemma candMapGet_append (url : String) (m l : List (String × HLSCandidate)) :
    candMapGet url (m ++ l)
      = match candMapGet url m with
        | some c => some c
        | none => candMapGet url l := by
  induction m with
  | nil => simp [candMapGet]
  | cons p rest ih =>
    obtain ⟨k, c⟩ := p
    by_cases h : k = url <;> simp [candMapGet, h, ih]

lemma any_key_of_candMapGet {url : String} {m : List (String × HLSCandidate)}
    {c : HLSCandidate} (h : candMapGet url m = some c) :
    m.any (fun p => p.1 = url) = true := by
  induction m with
  | nil => simp [candMapGet] at h
  | cons p rest ih =>
    obtain ⟨k, c'⟩ := p
    by_cases hk : k = url
    · simp [hk]
    · simp only [candMapGet, hk, if_false] at h
      simp [List.any_cons, ih h]

lemma candMapGet_of_any_false {url : String} {m : List (String × HLSCandidate)}
    (h : m.any (fun p => p.1 = url) = false) :
    candMapGet url m = none := by
  induction m with
  | nil => rfl
  | cons p rest ih =>
    obtain ⟨k, c'⟩ := p
    simp only [List.any_cons, Bool.or_eq_false_iff] at h
    have hk : k ≠ url := by simpa using h.1
    simp [candMapGet, hk, ih h.2]

lemma candMapGet_map_update (url : String) (c' : HLSCandidate)
    (m : List (String × HLSCandidate)) :
    candMapGet url (m.map (fun p => if p.1 = url then (url, c') else p))
      = (candMapGet url m).map (fun _ => c') := by
  induction m with
  | nil => rfl
  | cons p rest ih =>
    obtain ⟨k, c⟩ := p
    rw [List.map_cons]
    by_cases h : k = url
    · rw [if_pos (show (k, c).1 = url from h)]
      simp [candMapGet, h, ih]
    · rw [if_neg (show ¬((k, c).1 = url) from h)]
      simp [candMapGet, h, ih]

lemma candMapGet_isSome_of_any {url : String} {m : List (String × HLSCandidate)}
    (h : m.any (fun p => p.1 = url) = true) :
    ∃ c, candMapGet url m = some c := by
  induction m with
  | nil => simp at h
  | cons p rest ih =>
    obtain ⟨k, c⟩ := p
    by_cases hk : k = url
    · exact ⟨c, by simp [candMapGet, hk]⟩
    · have h2 : rest.any (fun p => p.1 = url) = true := by
        simpa [List.any_cons, hk] using h
      obtain ⟨c', hc'⟩ := ih h2
      exact ⟨c', by simp [candMapGet, hk, hc']⟩

lemma candMapGet_candMapSet_self (m : List (String × HLSCandidate))
    (url : String) (c' : HLSCandidate) :
    candMapGet url (candMapSet m url c') = some c' := by
  unfold candMapSet
  by_cases h : m.any (fun p => p.1 = url) = true
  · rw [if_pos h, candMapGet_map_update]
    obtain ⟨c, hc⟩ := candMapGet_isSome_of_any h
    rw [hc]
    rfl
  · rw [if_neg h, candMapGet_append]
    rw [candMapGet_of_any_false (by simpa only [Bool.not_eq_true] using h)]
    simp [candMapGet]

lemma candMapGet_map_update_ne (m : List (String × HLSCandidate))
    {url url' : String} (c' : HLSCandidate) (h : url ≠ url') :
    candMapGet url (m.map (fun p => if p.1 = url' then (url', c') else p))
      = candMapGet url m := by
  induction m with
  | nil => rfl
  | cons p rest ih =>
    obtain ⟨k, c⟩ := p
    rw [List.map_cons]
    by_cases hk : k = url'
    · rw [if_pos (show (k, c).1 = url' from hk)]
      have h1 : url' ≠ url := fun he => h he.symm
      have h2 : k ≠ url := fun he => h (he ▸ hk)
      simp [candMapGet, h1, h2, ih]
    · rw [if_neg (show ¬((k, c).1 = url') from hk)]
      by_cases hku : k = url
      · simp [candMapGet, hku]
      · simp [candMapGet, hku, ih]

lemma candMapGet_candMapSet_ne (m : List (String × HLSCandidate))
    {url url' : String} (c' : HLSCandidate) (h : url ≠ url') :
    candMapGet url (candMapSet m url' c') = candMapGet url m := by
  unfold candMapSet
  by_cases hany : m.any (fun p => p.1 = url') = true
  · rw [if_pos hany]
    exact candMapGet_map_update_ne m c' h
  · rw [if_neg hany, candMapGet_append]
    rcases hg : candMapGet url m with _ | c
    · simp [candMapGet, Ne.symm h]
    · simp

lemma candMapSet_keys (m : List (String × HLSCandidate)) (url : String)
    (c' : HLSCandidate) (hany : m.any (fun p => p.1 = url) = true) :
    (candMapSet m url c').map Prod.fst = m.map Prod.fst := by
  unfold candMapSet
  rw [if_pos hany, List.map_map]
  apply List.map_congr_left
  intro p _
  by_cases hk : p.1 = url
  · simp [Function.comp, hk]
  · simp [Function.comp, hk]

lemma addCandidate_keys_nodup (s : DetectorState) (url ct : String)
    (h : (s.candidates.map Prod.fst).Nodup) :
    ((addCandidate s url ct).candidates.map Prod.fst).Nodup := by
  unfold addCandidate
  by_cases hany : s.candidates.any (fun p => p.1 = url) = true
  · rw [if_pos hany]
    exact h
  · rw [if_neg hany]
    simp only [List.map_append, List.map_cons, List.map_nil]
    rw [List.nodup_append]
    refine ⟨h, List.nodup_singleton url, ?_⟩
    intro a ha hmem
    simp only [List.mem_singleton] at hmem
    subst hmem
    rw [List.mem_map] at ha
    obtain ⟨p, hp, hpa⟩ := ha
    rw [Bool.not_eq_true, List.any_eq_false] at hany
    have hne := hany p hp
    simp only [decide_eq_true_eq] at hne
    exact hne hpa

lemma candMapSet_keys_nodup (m : List (String × HLSCandidate)) (url : String)
    (c' : HLSCandidate) (h : (m.map Prod.fst).Nodup) :
    ((candMapSet m url c').map Prod.fst).Nodup := by
  unfold candMapSet
  by_cases hany : m.any (fun p => p.1 = url) = true
  · rw [if_pos hany]
    have hk : (m.map (fun p => if p.1 = url then (url, c') else p)).map Prod.fst
        = m.map Prod.fst := by
      rw [List.map_map]
      apply List.map_congr_left
      intro p _
      by_cases hp : p.1 = url
      · simp [Function.comp, hp]
      · simp [Function.comp, hp]
    rw [hk]
    exact h
  · rw [if_neg hany]
    simp only [List.map_append, List.map_cons, List.map_nil]
    rw [List.nodup_append]
    refine ⟨h, List.nodup_singleton url, ?_⟩
    intro a ha hmem
    simp only [List.mem_singleton] at hmem
    subst hmem
    rw [List.mem_map] at ha
    obtain ⟨p, hp, hpa⟩ := ha
    rw [Bool.not_eq_true, List.any_eq_false] at hany
    have hne := hany p hp
    simp only [decide_eq_true_eq] at hne
    exact hne hpa

lemma candMapGet_addCandidate (s : DetectorState) (u ct : String) {url : String}
    {c : HLSCandidate} (hc : candMapGet url s.candidates = some c) :
    candMapGet url (addCandidate s u ct).candidates = some c := by
  unfold addCandidate
  by_cases hany : s.candidates.any (fun p => p.1 = u) = true
  · rw [if_pos hany]
    exact hc
  · rw [if_neg hany]
    simp only
    rw [candMapGet_append, hc]

lemma detectorStep_keys_nodup (pt : Option (String → Bool)) (s : DetectorState)
    (e : NetEvent) (h : (s.candidates.map Prod.fst).Nodup) :
    ((detectorStep pt s e).candidates.map Prod.fst).Nodup := by
  cases e with
  | request url headers =>
    have hcand : (detectorStep pt s (NetEvent.request url headers)).candidates
        = (if isHLSCandidate pt url none then
            addCandidate s url ((alistGet "content-type" (normalizeHeaders headers)).getD "")
          else s).candidates := rfl
    rw [hcand]
    by_cases hc : isHLSCandidate pt url none = true
    · rw [if_pos hc]
      exact addCandidate_keys_nodup s url _ h
    · rw [if_neg hc]
      exact h
  | response url status headers =>
    have hcand : (detectorStep pt s (NetEvent.response url status headers)).candidates
        = (if isHlsManifest url ((alistGet "content-type" (normalizeHeaders headers)).getD "")
              && 200 ≤ status && status < 400 then
            addCandidate s url ((alistGet "content-type" (normalizeHeaders headers)).getD "")
          else s).candidates := rfl
    rw [hcand]
    split
    · exact addCandidate_keys_nodup s url _ h
    · exact h
  | requestFinished url rh =>
    have hcand : (detectorStep pt s (NetEvent.requestFinished url rh)).candidates
        = (handleRequestFinishedEvt s url rh).candidates := rfl
    rw [hcand]
    unfold handleRequestFinishedEvt
    cases rh with
    | none => exact h
    | some rh' =>
      simp only
      split
      · exact h
      · split
        · exact h
        · exact candMapSet_keys_nodup _ url _ h

lemma runDetector_keys_nodup (pt : Option (String → Bool)) (evs : List NetEvent) :
    ((runDetector pt evs).candidates.map Prod.fst).Nodup := by
  suffices h : ∀ (l : List NetEvent) (s : DetectorState),
      (s.candidates.map Prod.fst).Nodup →
      ((l.foldl (detectorStep pt) s).candidates.map Prod.fst).Nodup by
    exact h evs initialDetectorState (by simp [initialDetectorState])
  intro l
  induction l with
  | nil => intro s h; simpa using h
  | cons e l ih =>
    intro s h
    exact ih _ (detectorStep_keys_nodup pt s e h)

lemma detectorStep_contentType_stable (pt : Option (String → Bool))
    (s : DetectorState) (e : NetEvent) (url : String) (c : HLSCandidate)
    (hc : candMapGet url s.candidates = some c) (hct : c.contentType ≠ "") :
    ∃ c', candMapGet url (detectorStep pt s e).candidates = some c'
      ∧ c'.contentType = c.contentType := by
  cases e with
  | request u headers =>
    have hcand : (detectorStep pt s (NetEvent.request u headers)).candidates
        = (if isHLSCandidate pt u none then
            addCandidate s u ((alistGet "content-type" (normalizeHeaders headers)).getD "")
          else s).candidates := rfl
    rw [hcand]
    split
    · exact ⟨c, candMapGet_addCandidate s u _ hc, rfl⟩
    · exact ⟨c, hc, rfl⟩
  | response u status headers =>
    have hcand : (detectorStep pt s (NetEvent.response u status headers)).candidates
        = (if isHlsManifest u ((alistGet "content-type" (normalizeHeaders headers)).getD "")
              && 200 ≤ status && status < 400 then
            addCandidate s u ((alistGet "content-type" (normalizeHeaders headers)).getD "")
          else s).candidates := rfl
    rw [hcand]
    split
    · exact ⟨c, candMapGet_addCandidate s u _ hc, rfl⟩
    · exact ⟨c, hc, rfl⟩
  | requestFinished u rh =>
    have hcand : (detectorStep pt s (NetEvent.requestFinished u rh)).candidates
        = (handleRequestFinishedEvt s u rh).candidates := rfl
    rw [hcand]
    unfold handleRequestFinishedEvt
    cases rh with
    | none => exact ⟨c, hc, rfl⟩
    | some rh' =>
      simp only
      split
      · exact ⟨c, hc, rfl⟩
      · rcases hg : candMapGet u s.candidates with _ | cand
        · exact ⟨c, hc, rfl⟩
        · simp only
          by_cases hu : url = u
          · subst hu
            rw [hc] at hg
            injection hg with hg
            subst hg
            rw [if_neg hct]
            exact ⟨_, candMapGet_candMapSet_self _ _ _, rfl⟩
          · exact ⟨c, by rw [candMapGet_candMapSet_ne _ _ hu]; exact hc, rfl⟩

lemma detectorStep_requestFinished_headers (pt : Option (String → Bool))
    (s : DetectorState) (url : String) (rh : List (String × String))
    (c : HLSCandidate) (hc : candMapGet url s.candidates = some c) :
    ∃ c', candMapGet url
        (detectorStep pt s (NetEvent.requestFinished url (some rh))).candidates
          = some c'
      ∧ c'.headers = jsSpread c.headers (extractRelevantHeaders (normalizeHeaders rh)) := by
  have hany : s.candidates.any (fun p => p.1 = url) = true := any_key_of_candMapGet hc
  have hcand : (detectorStep pt s (NetEvent.requestFinished url (some rh))).candidates
      = (handleRequestFinishedEvt s url (some rh)).candidates := rfl
  rw [hcand]
  unfold handleRequestFinishedEvt
  simp only [hany, Bool.not_true, Bool.false_eq_true, if_false, hc]
  refine ⟨_, candMapGet_candMapSet_self _ _ _, ?_⟩
  split
  · rcases halist : alistGet "content-type" (normalizeHeaders rh) with _ | ct
    · rfl
    · by_cases hct : ct ≠ ""
      · simp [hct]
      · simp [hct]
  · rfl

/-- C8 counterexample.  Two request-finished observations of the same URL
carrying different values for an already-set header field: after the
second observation, the candidate's `origin` header has been overwritten
from `a` to `b`, contradicting the merge-only (never-overwritten) claim. -/
theorem detector_header_overwritten_counterexample :
    Option.map (fun c => alistGet "origin" c.headers)
        (candMapGet "https://s/v.m3u8" (runDetector none
          [NetEvent.request "https://s/v.m3u8" [],
           NetEvent.requestFinished "https://s/v.m3u8"
             (some [("origin", "a")])]).candidates)
      = some (some "a")
    ∧ Option.map (fun c => alistGet "origin" c.headers)
        (candMapGet "https://s/v.m3u8" (runDetector none
          [NetEvent.request "https://s/v.m3u8" [],
           NetEvent.requestFinished "https://s/v.m3u8"
             (some [("origin", "a")]),
           NetEvent.requestFinished "https://s/v.m3u8"
             (some [("origin", "b")])]).candidates)
      = some (some "b") := by
  exact ⟨rfl, rfl⟩

/-- C8 amended.  For every observation sequence the detector keeps at most
one candidate per URL: the candidate map's keys stay pairwise distinct, a
repeated observation of a known URL never creating a duplicate (conjunct
1).  A candidate's content type is merge-only — once non-empty it survives
every further observation unchanged (conjunct 2).  A candidate's headers,
by contrast, are updated at request-finished time by object spread, so a
later observation overwrites an already-set header field on key conflicts
instead of only filling empty ones (conjunct 3). -/
theorem detector_dedup_and_merge_semantics :
    (∀ (pt : Option (String → Bool)) (evs : List NetEvent),
        ((runDetector pt evs).candidates.map Prod.fst).Nodup)
    ∧ (∀ (pt : Option (String → Bool)) (s : DetectorState) (e : NetEvent)
          (url : String) (c : HLSCandidate),
        candMapGet url s.candidates = some c → c.contentType ≠ "" →
        ∃ c', candMapGet url (detectorStep pt s e).candidates = some c'
          ∧ c'.contentType = c.contentType)
    ∧ (∀ (pt : Option (String → Bool)) (s : DetectorState) (url : String)
          (rh : List (String × String)) (c : HLSCandidate),
        candMapGet url s.candidates = some c →
        ∃ c', candMapGet url
            (detectorStep pt s (NetEvent.requestFinished url (some rh))).candidates
              = some c'
          ∧ c'.headers
              = jsSpread c.headers (extractRelevantHeaders (normalizeHeaders rh))) :=
  ⟨runDetector_keys_nodup, detectorStep_contentType_stable,
   detectorStep_requestFinished_headers⟩

/-- A concrete detector state holding one candidate with a set content
type and one header. -/
def sampleDetectorState : DetectorState :=
  { candidates := [("https://s/v.m3u8",
      { url := "https://s/v.m3u8", contentType := "application/x-mpegurl",
        headers := [("origin", "a")], cookies := [], detectedAt := 0,
        source := "response" })],
    collectedHeaders := [], collectedCookies := [], time := 1 }

/-- C8 witness: the amended theorem applied at a concrete state and
events — the set content type survives a response observation, and a
request-finished observation rewrites the headers by object spread. -/
theorem detector_dedup_and_merge_witness :
    (∃ c', candMapGet "https://s/v.m3u8"
          (detectorStep none sampleDetectorState
            (NetEvent.response "https://s/v.m3u8" 200
              [("content-type", "audio/mpegurl")])).candidates = some c'
        ∧ c'.contentType = "application/x-mpegurl")
    ∧ ∃ c', candMapGet "https://s/v.m3u8"
          (detectorStep none sampleDetectorState
            (NetEvent.requestFinished "https://s/v.m3u8"
              (some [("origin", "b")]))).candidates = some c'
        ∧ c'.headers = jsSpread [("origin", "a")]
            (extractRelevantHeaders (normalizeHeaders [("origin", "b")])) := by
  constructor
  · exact detector_dedup_and_merge_semantics.2.1 none sampleDetectorState
      (NetEvent.response "https://s/v.m3u8" 200 [("content-type", "audio/mpegurl")])
      "https://s/v.m3u8" _ rfl (by decide)
  · exact detector_dedup_and_merge_semantics.2.2 none sampleDetectorState
      "https://s/v.m3u8" [("origin", "b")] _ rfl

/-! ## Browser pool (core/resolver/browser.pool.ts)

Embedding of `BrowserPool` and `BrowserPage` as a state machine.  `getPage`
wraps its body in `pLimit(maxConcurrentPages)`: p-limit admits a call when
its active count is below the limit and frees the slot when the wrapped
async function settles — which happens when the `BrowserPage` lease is
returned, not when the lease is released.  An execution is a sequence of
events: a `getPage` call (with the oracle value of the random browser
pick), the completion of one admitted body (taking the earliest admitted
call, one legal async schedule), and a lease release. -/

/-- Pool state: `limitActiveCount` / `limitQueue` are p-limit's counter
and FIFO queue; `runningBody` holds the picks of admitted, not yet settled
getPage bodies; `leasesReleased` holds one released-flag per handed-out
lease. -/
structure PoolState where
  maxConcurrentPages : Nat
  browsersConnected : List Bool
  limitActiveCount : Nat
  limitQueue : List Nat
  runningBody : List Nat
  leasesReleased : List Bool
  activePagesCount : Nat
  isShuttingDown : Bool
  errors : List String
deriving Repr, DecidableEq

/-- Pool events. -/
inductive PoolEvent
  | getPageCall (pick : Nat)
  | bodyComplete
  | releaseLease (i : Nat)
deriving Repr, DecidableEq

/-- A freshly initialised pool with `n` connected browsers and
concurrency limit `m`. -/
def initialPoolState (n m : Nat) : PoolState :=
  { maxConcurrentPages := m, browsersConnected := List.replicate n true,
    limitActiveCount := 0, limitQueue := [], runningBody := [],
    leasesReleased := [], activePagesCount := 0, isShuttingDown := false,
    errors := [] }

/-- Model of calling `getPage()`: the synchronous shutdown check, then
p-limit admission (run now or queue). -/
def poolGetPageCall (s : PoolState) (pick : Nat) : PoolState :=
  if s.isShuttingDown then
    { s with errors := s.errors ++ ["Browser pool is shutting down"] }
  else if s.limitActiveCount < s.maxConcurrentPages then
    { s with limitActiveCount := s.limitActiveCount + 1,
             runningBody := s.runningBody ++ [pick] }
  else
    { s with limitQueue := s.limitQueue ++ [pick] }

/-- Model of one admitted `getPage` body running to completion:
`getAvailableBrowser` picks the random browser and throws
`No available browser in pool` when it is missing or disconnected, else a
page is created, the counter incremented and a lease handed out.  On
settlement (success or error alike) p-limit decrements its active count
and starts the next queued call. -/
def poolBodyComplete (s : PoolState) : PoolState :=
  match s.runningBody with
  | [] => s
  | pick :: rest =>
    let s1 := { s with runningBody := rest }
    let s2 :=
      match s1.browsersConnected.get? pick with
      | some true =>
        { s1 with activePagesCount := s1.activePagesCount + 1,
                  leasesReleased := s1.leasesReleased ++ [false] }
      | _ => { s1 with errors := s1.errors ++ ["No available browser in pool"] }
    let s3 := { s2 with limitActiveCount := s2.limitActiveCount - 1 }
    match s3.limitQueue with
    | [] => s3
    | q :: qs =>
      { s3 with limitQueue := qs, limitActiveCount := s3.limitActiveCount + 1,
                runningBody := s3.runningBody ++ [q] }

/-- Model of `BrowserPage.release` acting on the pool: a second release of
the same lease is a no-op; the callback decrements the counter with
`Math.max(0, n - 1)`, which is natural subtraction. -/
def poolReleaseLease (s : PoolState) (i : Nat) : PoolState :=
  match s.leasesReleased.get? i with
  | some false =>
    { s with leasesReleased := s.leasesReleased.set i true,
             activePagesCount := s.activePagesCount - 1 }
  | _ => s

/-- One pool event. -/
def poolStep (s : PoolState) : PoolEvent → PoolState
  | PoolEvent.getPageCall p => poolGetPageCall s p
  | PoolEvent.bodyComplete => poolBodyComplete s
  | PoolEvent.releaseLease i => poolReleaseLease s i

/-- A sequence of pool events. -/
def poolRun (s : PoolState) (evs : List PoolEvent) : PoolState :=
  evs.foldl poolStep s

/-- Number of handed-out, unreleased leases. -/
def outstandingLeases (s : PoolState) : Nat :=
  (s.leasesReleased.filter (fun released => !released)).length

/-- C1 (code bug).  With pool size N = 1 and concurrency limit M = 1, two
`getPage()` calls that each complete before any lease is released are both
admitted and both succeed, leaving two concurrently outstanding unreleased
leases with no error: p-limit frees its slot when the `getPage` body
settles (when the lease is handed out), not when the lease is released, so
`maxConcurrentPages` does not bound outstanding leases. -/
theorem pool_outstanding_leases_exceed_limit :
    outstandingLeases (poolRun (initialPoolState 1 1)
        [PoolEvent.getPageCall 0, PoolEvent.bodyComplete,
         PoolEvent.getPageCall 0, PoolEvent.bodyComplete]) = 2
    ∧ (poolRun (initialPoolState 1 1)
        [PoolEvent.getPageCall 0, PoolEvent.bodyComplete,
         PoolEvent.getPageCall 0, PoolEvent.bodyComplete]).maxConcurrentPages = 1
    ∧ (poolRun (initialPoolState 1 1)
        [PoolEvent.getPageCall 0, PoolEvent.bodyComplete,
         PoolEvent.getPageCall 0, PoolEvent.bodyComplete]).errors = [] := by
  exact ⟨rfl, rfl, rfl⟩

/-- C2 counterexample.  A pool whose only browser is disconnected while
not shutting down: the next `getPage()` surfaces the error
`No available browser in pool` to the caller — no replacement browser is
launched and the browser list is unchanged. -/
theorem pool_no_replacement_counterexample :
    (poolRun { initialPoolState 1 1 with browsersConnected := [false] }
        [PoolEvent.getPageCall 0, PoolEvent.bodyComplete]).errors
      = ["No available browser in pool"]
    ∧ (poolRun { initialPoolState 1 1 with browsersConnected := [false] }
        [PoolEvent.getPageCall 0, PoolEvent.bodyComplete]).browsersConnected
      = [false]
    ∧ (poolRun { initialPoolState 1 1 with browsersConnected := [false] }
        [PoolEvent.getPageCall 0, PoolEvent.bodyComplete]).isShuttingDown
      = false := by
  exact ⟨rfl, rfl, rfl⟩

/-- C2 amended.  Whenever the randomly chosen browser slot is missing or
disconnected, an admitted `getPage` call surfaces the error
`No available browser in pool` to its caller even though the pool is not
shutting down; the pool launches no replacement (the browser list is
unchanged) and no lease is handed out. -/
theorem pool_disconnected_browser_errors (s : PoolState) (pick : Nat)
    (hshut : s.isShuttingDown = false)
    (hcap : s.limitActiveCount < s.maxConcurrentPages)
    (hrun : s.runningBody = [])
    (hbad : s.browsersConnected.get? pick ≠ some true) :
    (poolRun s [PoolEvent.getPageCall pick, PoolEvent.bodyComplete]).errors
        = s.errors ++ ["No available browser in pool"]
    ∧ (poolRun s [PoolEvent.getPageCall pick, PoolEvent.bodyComplete]).browsersConnected
        = s.browsersConnected
    ∧ (poolRun s [PoolEvent.getPageCall pick, PoolEvent.bodyComplete]).leasesReleased
        = s.leasesReleased := by
  simp only [poolRun, List.foldl_cons, List.foldl_nil, poolStep]
  unfold poolGetPageCall
  rw [hshut]
  simp only [Bool.false_eq_true, if_false, if_pos hcap]
  unfold poolBodyComplete
  simp only [hrun, List.nil_append]
  rcases hb : s.browsersConnected.get? pick with _ | b
  · rcases hq : s.limitQueue with _ | ⟨q, qs⟩ <;> simp [hb, hq]
  · cases b with
    | true => exact absurd hb hbad
    | false => rcases hq : s.limitQueue with _ | ⟨q, qs⟩ <;> simp [hb, hq]

/-- C2 witness: the amended theorem applied to a one-browser pool whose
browser is disconnected. -/
theorem pool_disconnected_browser_witness :
    (poolRun { initialPoolState 1 1 with browsersConnected := [false] }
        [PoolEvent.getPageCall 0, PoolEvent.bodyComplete]).errors
        = [] ++ ["No available browser in pool"]
    ∧ (poolRun { initialPoolState 1 1 with browsersConnected := [false] }
        [PoolEvent.getPageCall 0, PoolEvent.bodyComplete]).browsersConnected
        = [false]
    ∧ (poolRun { initialPoolState 1 1 with browsersConnected := [false] }
        [PoolEvent.getPageCall 0, PoolEvent.bodyComplete]).leasesReleased
        = [] :=
  pool_disconnected_browser_errors
    { initialPoolState 1 1 with browsersConnected := [false] } 0
    rfl (by decide) rfl (by decide)

/-! ### C9: lease release is idempotent -/

/-- The two flags of a `BrowserPage` lease relevant to release. -/
structure LeaseState where
  isReleased : Bool
  pageClosed : Bool
deriving Repr, DecidableEq

/-- Embedding of `BrowserPage.release` together with the pool's
`releasePage` callback.  `closeOk` models whether `page.close()` returns
or throws; a throw is caught and logged, and the `finally` block marks the
lease released and runs the callback regardless, so release itself never
throws (it is total).  The callback decrements the active-page counter
with `Math.max(0, n - 1)`, natural subtraction here.  A lease that is
already released returns immediately. -/
def leaseRelease (closeOk : Bool) (l : LeaseState) (activePagesCount : Nat) :
    LeaseState × Nat :=
  if l.isReleased then (l, activePagesCount)
  else
    let pageClosed :=
      if !l.pageClosed then (if closeOk then true else l.pageClosed)
      else l.pageClosed
    ({ isReleased := true, pageClosed := pageClosed }, activePagesCount - 1)

/-- C9.  Release is idempotent: releasing an already-released lease is a
harmless no-op, so any repetition of release equals a single release
(conjunct 1) — equivalently the pool-level release event is idempotent on
the whole pool state (conjunct 3) — and a first release from the
unreleased state marks the lease released, decrements the active-lease
counter exactly once, and closes the tab when closing succeeds
(conjunct 2).  Release is a total function: it never throws. -/
theorem lease_release_idempotent :
    (∀ (l : LeaseState) (c : Nat) (o1 o2 : Bool),
        leaseRelease o2 (leaseRelease o1 l c).1 (leaseRelease o1 l c).2
          = leaseRelease o1 l c)
    ∧ (∀ (l : LeaseState) (c : Nat) (o : Bool),
        l.isReleased = false → 0 < c →
        (leaseRelease o l c).1.isReleased = true
        ∧ (leaseRelease o l c).2 = c - 1
        ∧ (o = true → (leaseRelease o l c).1.pageClosed = true))
    ∧ (∀ (s : PoolState) (i : Nat),
        poolReleaseLease (poolReleaseLease s i) i = poolReleaseLease s i) := by
  refine ⟨?_, ?_, ?_⟩
  · intro l c o1 o2
    by_cases h : l.isReleased = true
    · simp [leaseRelease, h]
    · rw [Bool.not_eq_true] at h
      simp [leaseRelease, h]
  · intro l c o h hc
    rw [leaseRelease, if_neg (by simp [h])]
    refine ⟨rfl, rfl, ?_⟩
    intro ho
    subst ho
    rcases hp : l.pageClosed with _ | _ <;> simp [hp]
  · intro s i
    rcases hg : s.leasesReleased[i]? with _ | b
    · simp [poolReleaseLease, hg]
    · cases b with
      | true => simp [poolReleaseLease, hg]
      | false =>
        have hlen : i < s.leasesReleased.length := by
          by_contra hlt
          rw [not_lt] at hlt
          rw [List.getElem?_eq_none hlt] at hg
          cases hg
        have hset : (s.leasesReleased.set i true)[i]? = some true :=
          List.getElem?_set_eq_of_lt true hlen
        simp [poolReleaseLease, hg, hset]

/-- C9 witness: the theorem applied to a fresh lease with counter 3 and a
succeeding close. -/
theorem lease_release_witness :
    ((⟨false, false⟩ : LeaseState).isReleased = false ∧ 0 < 3)
    ∧ leaseRelease true (leaseRelease true ⟨false, false⟩ 3).1
        (leaseRelease true ⟨false, false⟩ 3).2 = leaseRelease true ⟨false, false⟩ 3
    ∧ (leaseRelease true ⟨false, false⟩ 3).1.isReleased = true
    ∧ (leaseRelease true ⟨false, false⟩ 3).2 = 3 - 1
    ∧ (leaseRelease true ⟨false, false⟩ 3).1.pageClosed = true := by
  refine ⟨⟨rfl, by decide⟩,
    lease_release_idempotent.1 ⟨false, false⟩ 3 true true, ?_, ?_, ?_⟩
  · exact (lease_release_idempotent.2.1 ⟨false, false⟩ 3 true rfl (by decide)).1
  · exact (lease_release_idempotent.2.1 ⟨false, false⟩ 3 true rfl (by decide)).2.1
  · exact (lease_release_idempotent.2.1 ⟨false, false⟩ 3 true rfl (by decide)).2.2 rfl

/-! ## Activation strategy recording (core/resolver/resolver.service.ts)

Embedding of the strategy-recording skeleton of `navigateAndDetect` and
the cache write in `resolveHLS`.  The browser environment is an oracle:
the candidate counts the detector reports at each poll of each wait, how
many overlays were closed, and whether each click succeeded.  The page
interactions themselves have no further effect on the model beyond these
oracles. -/

/-- The `ActivationStrategyName` enum of resolver.service.ts. -/
inductive ActivationStrategyName
  | none
  | fastCenterOnce
  | fastCenterDouble
  | overlayClose
  | playElements
deriving Repr, DecidableEq

/-- The `ActivationStrategy` shape (strategy-cache.interface.ts). -/
structure ActivationStrategy where
  name : ActivationStrategyName
deriving Repr, DecidableEq

/-- The `NavigationResult` shape. -/
structure NavigationResult where
  strategy : Option ActivationStrategy
  clicksPerformed : Nat
deriving Repr, DecidableEq

/-- Embedding of `ResolverService.waitForStreamDetection`: the poll loop
is driven by the candidate counts observed at successive checks (an empty
list models reaching the timeout).  Whenever candidates are present it
returns the strategy named `none` — regardless of which activation step
preceded the wait — and on timeout it returns null. -/
def waitForStreamDetection : List Nat → Option ActivationStrategy
  | [] => Option.none
  | c :: rest =>
    if c > 0 then some { name := ActivationStrategyName.none }
    else waitForStreamDetection rest

/-- Oracle environment for one `navigateAndDetect` run: candidate counts
seen at each poll, overlay/click outcomes, and per-element click plans for
the play-element and iframe loops (each entry: click success, then the
poll counts of the wait that follows). -/
structure NavEnv where
  candidatesAfterFirstWait : Nat
  candidatesAfterSecondWait : Nat
  firstClickOk : Bool
  clickRetries : Nat
  secondClickOk : Bool
  shortWaitPolls : List Nat
  overlaysClosed : Nat
  postOverlayClickOk : Bool
  postOverlayPolls : List Nat
  plays : List (Bool × List Nat)
  frames : List (Bool × List Nat)
  extendedPolls : List Nat

/-- The shared shape of the play-element and iframe loops: click each
element in order (a failed click is caught and skipped), wait for
detection after a successful click, stop at the first detection.  Returns
the detected strategy (always named `none`) and the clicks performed. -/
def tryClickList : List (Bool × List Nat) → Option ActivationStrategy × Nat
  | [] => (Option.none, 0)
  | (ok, polls) :: rest =>
    if ok then
      match waitForStreamDetection polls with
      | some d => (some d, 1)
      | Option.none =>
        let r := tryClickList rest
        (r.1, r.2 + 1)
    else tryClickList rest

/-- The overlay stage: when overlays were closed, a centre click is
retried (its failure caught) and detection awaited. -/
def overlayStage (env : NavEnv) : Option ActivationStrategy × Nat :=
  if env.overlaysClosed > 0 then
    if env.postOverlayClickOk then
      (waitForStreamDetection env.postOverlayPolls, 1)
    else (Option.none, 0)
  else (Option.none, 0)

/-- Embedding of the strategy-recording skeleton of
`ResolverService.navigateAndDetect`: early return with strategy `none`
when candidates appear after navigation; otherwise centre clicks, a short
wait, then — while no strategy was detected — the overlay stage, the
play-element loop, the iframe loop, and a final extended wait. -/
def navigateAndDetect (env : NavEnv) : NavigationResult :=
  if env.candidatesAfterFirstWait > 0 then
    { strategy := some { name := ActivationStrategyName.none }, clicksPerformed := 0 }
  else if env.candidatesAfterSecondWait > 0 then
    { strategy := some { name := ActivationStrategyName.none }, clicksPerformed := 0 }
  else
    let clicks0 := (if env.firstClickOk then 1 else 0)
      + (if env.clickRetries > 0 && env.secondClickOk then 1 else 0)
    let s0 := waitForStreamDetection env.shortWaitPolls
    match s0 with
    | some d => { strategy := some d, clicksPerformed := clicks0 }
    | Option.none =>
      let r1 := overlayStage env
      let r2 := if r1.1.isSome then (r1.1, 0) else tryClickList env.plays
      let r3 := if r2.1.isSome then (r2.1, 0) else tryClickList env.frames
      let s4 := if r3.1.isSome then r3.1
        else waitForStreamDetection env.extendedPolls
      { strategy := s4, clicksPerformed := clicks0 + r1.2 + r2.2 + r3.2 }

/-- `Map.set` of the in-memory strategy cache (strategy-cache/...):
overwrite per domain, at most one entry per domain. -/
def strategyCacheSet (cache : List (String × ActivationStrategy))
    (domain : String) (strat : ActivationStrategy) :
    List (String × ActivationStrategy) :=
  if cache.any (fun p => p.1 = domain) then
    cache.map (fun p => if p.1 = domain then (domain, strat) else p)
  else cache ++ [(domain, strat)]

/-- Embedding of the cache write in `resolveHLS`: a non-null strategy is
persisted for the page's domain, a null one is not. -/
def persistStrategy (cache : List (String × ActivationStrategy))
    (domain : String) (r : NavigationResult) :
    List (String × ActivationStrategy) :=
  match r.strategy with
  | some strat => strategyCacheSet cache domain strat
  | Option.none => cache

lemma waitForStreamDetection_none_or_noneStrategy (polls : List Nat) :
    waitForStreamDetection polls = Option.none
    ∨ waitForStreamDetection polls = some { name := ActivationStrategyName.none } := by
  induction polls with
  | nil => exact Or.inl rfl
  | cons c rest ih =>
    unfold waitForStreamDetection
    by_cases h : c > 0
    · exact Or.inr (by rw [if_pos h])
    · rw [if_neg h]
      exact ih

lemma tryClickList_none_or_noneStrategy (l : List (Bool × List Nat)) :
    (tryClickList l).1 = Option.none
    ∨ (tryClickList l).1 = some { name := ActivationStrategyName.none } := by
  induction l with
  | nil => exact Or.inl rfl
  | cons p rest ih =>
    obtain ⟨ok, polls⟩ := p
    unfold tryClickList
    by_cases h : ok = true
    · rw [if_pos h]
      rcases hw : waitForStreamDetection polls with _ | d
      · simpa using ih
      · rcases waitForStreamDetection_none_or_noneStrategy polls with h0 | h0
        · rw [h0] at hw
          cases hw
        · rw [h0] at hw
          injection hw with hw
          subst hw
          exact Or.inr rfl
    · rw [if_neg h]
      exact ih

lemma overlayStage_none_or_noneStrategy (env : NavEnv) :
    (overlayStage env).1 = Option.none
    ∨ (overlayStage env).1 = some { name := ActivationStrategyName.none } := by
  unfold overlayStage
  by_cases h1 : env.overlaysClosed > 0
  · rw [if_pos h1]
    by_cases h2 : env.postOverlayClickOk = true
    · rw [if_pos h2]
      exact waitForStreamDetection_none_or_noneStrategy env.postOverlayPolls
    · rw [if_neg h2]
      exact Or.inl rfl
  · rw [if_neg h1]
    exact Or.inl rfl

/-- An environment in which no candidate is detected until the wait that
follows the overlay-close step: the overlay dismissal is the first
interaction step followed by a detected candidate. -/
def overlayScenarioEnv : NavEnv :=
  { candidatesAfterFirstWait := 0, candidatesAfterSecondWait := 0,
    firstClickOk := true, clickRetries := 1, secondClickOk := true,
    shortWaitPolls := [0, 0, 0], overlaysClosed := 1,
    postOverlayClickOk := true, postOverlayPolls := [0, 1],
    plays := [], frames := [], extendedPolls := [] }

/-- C3 (code bug).  The recorded strategy of every `navigateAndDetect`
run is null or the strategy named `none` — never `overlay-close` or any
other step name — because `waitForStreamDetection` always returns
`name: none` when candidates appear (conjunct 1).  In the concrete run in
which the overlay-close step is the first step followed by a detected
candidate, the recorded strategy is `none`, not `overlay-close`
(conjuncts 2-3), and `resolveHLS` persists `none` into the strategy cache
for the domain (conjunct 4). -/
theorem resolver_always_records_none_strategy :
    (∀ env : NavEnv, (navigateAndDetect env).strategy = Option.none
        ∨ (navigateAndDetect env).strategy
            = some { name := ActivationStrategyName.none })
    ∧ (navigateAndDetect overlayScenarioEnv).strategy
        = some { name := ActivationStrategyName.none }
    ∧ (navigateAndDetect overlayScenarioEnv).strategy
        ≠ some { name := ActivationStrategyName.overlayClose }
    ∧ persistStrategy [] "example.com" (navigateAndDetect overlayScenarioEnv)
        = [("example.com", { name := ActivationStrategyName.none })] := by
  refine ⟨?_, rfl, by decide, rfl⟩
  intro env
  by_cases h1 : env.candidatesAfterFirstWait > 0
  · simp [navigateAndDetect, h1]
  · by_cases h2 : env.candidatesAfterSecondWait > 0
    · simp [navigateAndDetect, h1, h2]
    · rcases hw : waitForStreamDetection env.shortWaitPolls with _ | d
      · have hov := overlayStage_none_or_noneStrategy env
        have hpl := tryClickList_none_or_noneStrategy env.plays
        have hfr := tryClickList_none_or_noneStrategy env.frames
        have hex := waitForStreamDetection_none_or_noneStrategy env.extendedPolls
        rcases hov with h3 | h3 <;> rcases hpl with h4 | h4 <;>
          rcases hfr with h5 | h5 <;> rcases hex with h6 | h6 <;>
          simp [navigateAndDetect, h1, h2, hw, h3, h4, h5, h6]
      · rcases waitForStreamDetection_none_or_noneStrategy env.shortWaitPolls
          with h0 | h0
        · rw [h0] at hw
          cases hw
        · rw [h0] at hw
          injection hw with hw
          subst hw
          simp [navigateAndDetect, h1, h2, h0]

end HLSResolver
